import Mathlib

/-!
# Megabuffer: chunk bump allocation and the chunk pool

A shallow embedding of `skyline/gpu/megabuffer.cpp`.

* Sizes and offsets (`size_t`, `vk::DeviceSize`) are natural numbers; every value the code
  computes is bounded by the chunk size plus the page size, far below `2 ^ 64`, so no
  wrap-around is involved.
* A `std::shared_ptr<FenceCycle>` is an `Option FenceCycle`: `none` is the null pointer and
  `some t` points at the fence cycle object `t`. Pointer comparison is equality of options.
* A `span<u8>` into the backing buffer is kept as its offset from `backing.data()` and its size.
* The contents of the backing buffer are a function from byte index to byte.
* The external fence cycle operations are not executed: `Poll` is an arbitrary answer function
  supplied by the environment, and the calls of `ChainCycle` are recorded in a log.
* Dereferencing a null `newCycle` has no defined behaviour; the operations return `none` there.
-/

namespace skyline.gpu

/-- A byte (`u8`). -/
abbrev u8 := Fin 256

/-- The identity of a fence cycle object (what a non-null `std::shared_ptr<FenceCycle>` points at). -/
abbrev FenceCycle := Nat

/-- Size in bytes of a single megabuffer chunk (25MiB). -/
def MegaBufferChunkSize : Nat := 25 * 1024 * 1024

/-- Modelled from the spec: the constant `PAGE_SIZE` is declared outside `megabuffer.cpp`;
the example scenario of the spec fixes the page size `P = 4096`. -/
def PAGE_SIZE : Nat := 4096

/-- Modelled from the spec: `util::AlignUp` is declared outside `megabuffer.cpp`; the spec
describes it as rounding an offset up to the nearest page boundary, that is to the next
multiple of `multiple`. -/
def AlignUp (value multiple : Nat) : Nat :=
  (value + (multiple - 1)) / multiple * multiple

/-- A view into the backing buffer: `offset` is `data() - backing.data()`, `size` is `size()`. -/
structure span where
  offset : Nat
  size : Nat
deriving DecidableEq, Repr

/-- The one-argument `subspan(offset)`: drop the first `offset` bytes of the view. -/
def span.subspan (s : span) (offset : Nat) : span :=
  ⟨s.offset + offset, s.size - offset⟩

/-- The two-argument `subspan(offset, count)`: `count` bytes of the view starting at `offset`. -/
def span.subspanCount (s : span) (offset count : Nat) : span :=
  ⟨s.offset + offset, count⟩

/-- The buffer `gpu.memory.AllocateBuffer(MegaBufferChunkSize)` returns: its Vulkan handle and
its contents. Its size is always `MegaBufferChunkSize`. -/
structure Buffer where
  vkBuffer : Nat
  bytes : Nat → u8

/-- The whole buffer as a view. -/
def Buffer.view (_b : Buffer) : span :=
  ⟨0, MegaBufferChunkSize⟩

/-- The call `backing.subspan(offset)`. -/
def Buffer.subspan (b : Buffer) (offset : Nat) : span :=
  b.view.subspan offset

/-- The call `dst.copy_from(data)` for a view `dst` into the buffer: the bytes of `data` are
written at `dst.offset`, `dst.offset + 1`, ... -/
def Buffer.copy_from (b : Buffer) (dst : span) (data : List u8) : Buffer :=
  { b with bytes := fun i =>
      if dst.offset ≤ i ∧ i < dst.offset + data.length then data.getD (i - dst.offset) 0
      else b.bytes i }

/-- The members of `MegaBufferChunk`. -/
structure MegaBufferChunk where
  backing : Buffer
  freeRegion : span
  cycle : Option FenceCycle

/-- The constructor `MegaBufferChunk::MegaBufferChunk(GPU &gpu)`; `backing` is the buffer the
device allocator returned. -/
def MegaBufferChunk.construct (backing : Buffer) : MegaBufferChunk :=
  { backing := backing, freeRegion := backing.subspan PAGE_SIZE, cycle := none }

/-- The method `MegaBufferChunk::TryReset`; `poll t wait` is the answer of `t->Poll(wait)`.
Returns the boolean result and the chunk afterwards. -/
def MegaBufferChunk.TryReset (c : MegaBufferChunk) (poll : FenceCycle → Bool → Bool) :
    Bool × MegaBufferChunk :=
  match c.cycle with
  | some t =>
    if poll t true then
      (true, { c with freeRegion := c.backing.subspan PAGE_SIZE, cycle := none })
    else
      (false, c)
  | none => (true, c)

/-- The method `MegaBufferChunk::GetBacking`. -/
def MegaBufferChunk.GetBacking (c : MegaBufferChunk) : Nat :=
  c.backing.vkBuffer

/-- One call `newCycle->ChainCycle(cycle)`: the receiver and its argument. -/
structure ChainCall where
  receiver : FenceCycle
  argument : Option FenceCycle
deriving DecidableEq, Repr

/-- What a call of `MegaBufferChunk::Push` leaves behind: the returned offset, the chunk
afterwards and the calls of `ChainCycle` it made, in order. -/
structure PushResult where
  offset : Nat
  chunk : MegaBufferChunk
  chained : List ChainCall

/-- Lines 27 to 31 of `MegaBufferChunk::Push`: when page aligned data is requested the free
region is moved to start at the next page boundary. -/
def MegaBufferChunk.alignFree (c : MegaBufferChunk) (pageAlign : Bool) : MegaBufferChunk :=
  if pageAlign then
    { c with freeRegion := c.backing.subspan (AlignUp c.freeRegion.offset PAGE_SIZE) }
  else c

/-- The method `MegaBufferChunk::Push`. The result is `none` exactly when the call dereferences
a null `newCycle` (line 37). -/
def MegaBufferChunk.Push (c : MegaBufferChunk) (newCycle : Option FenceCycle) (data : List u8)
    (pageAlign : Bool) : Option PushResult :=
  let c1 := c.alignFree pageAlign
  if data.length > c1.freeRegion.size then
    some { offset := 0, chunk := c1, chained := [] }
  else
    let resultSpan := c1.freeRegion.subspanCount 0 data.length
    if c1.cycle ≠ newCycle then
      match newCycle with
      | none => none
      | some t =>
        some { offset := resultSpan.offset,
               chunk := { backing := c1.backing.copy_from resultSpan data,
                          freeRegion := c1.freeRegion.subspan data.length,
                          cycle := some t },
               chained := [⟨t, c1.cycle⟩] }
    else
      some { offset := resultSpan.offset,
             chunk := { backing := c1.backing.copy_from resultSpan data,
                        freeRegion := c1.freeRegion.subspan data.length,
                        cycle := c1.cycle },
             chained := [] }

/-- The members of `MegaBufferAllocator` that `Push` uses: the list of chunks and the iterator
`activeChunk`, kept as a position in the list (`chunks.length` is `chunks.end()`). -/
structure MegaBufferAllocator where
  chunks : List MegaBufferChunk
  activeChunk : Nat

/-- The constructor `MegaBufferAllocator::MegaBufferAllocator(GPU &gpu)`; `backing` is the
buffer the device allocator returned for the first chunk. -/
def MegaBufferAllocator.construct (backing : Buffer) : MegaBufferAllocator :=
  { chunks := [MegaBufferChunk.construct backing], activeChunk := 0 }

/-- The call `ranges::find_if(chunks, [&](auto &chunk) { return chunk.TryReset(); })`: the
position of the first chunk whose `TryReset` returns true (the length of the list, the position
of `chunks.end()`, when there is none) and the chunks afterwards. `poll i` answers the
completion query made on the chunk at position `i`. -/
def findTryReset (poll : Nat → FenceCycle → Bool → Bool) :
    List MegaBufferChunk → Nat × List MegaBufferChunk
  | [] => (0, [])
  | c :: cs =>
    if (c.TryReset (poll 0)).1 then
      (0, (c.TryReset (poll 0)).2 :: cs)
    else
      ((findTryReset (fun i => poll (i + 1)) cs).1 + 1,
        (c.TryReset (poll 0)).2 :: (findTryReset (fun i => poll (i + 1)) cs).2)

/-- Lines 68 to 70 of `MegaBufferAllocator::Push`: the new position of `activeChunk` and the
chunks afterwards. When `find_if` reaches the end a chunk constructed on the buffer `fresh` is
appended and becomes active. -/
def reclaimOrGrow (fresh : Buffer) (poll : Nat → FenceCycle → Bool → Bool)
    (chunks : List MegaBufferChunk) : Nat × List MegaBufferChunk :=
  let found := findTryReset poll chunks
  if found.1 = found.2.length then
    (found.2.length, found.2 ++ [MegaBufferChunk.construct fresh])
  else found

/-- The type `MegaBufferAllocator::Allocation`: a buffer handle and an offset. -/
structure Allocation where
  buffer : Nat
  offset : Nat
deriving DecidableEq, Repr

/-- How a call of `MegaBufferAllocator::Push` ends: it returns an allocation, or it throws the
exception "Failed to to allocate megabuffer space for size" with the requested size. -/
inductive PushEnd where
  | returned (allocation : Allocation)
  | thrown (size : Nat)
deriving DecidableEq, Repr

/-- What a call of `MegaBufferAllocator::Push` leaves behind: how it ended, the allocator
afterwards and the calls of `ChainCycle` made, in order. -/
structure AllocatorPushResult where
  outcome : PushEnd
  allocator : MegaBufferAllocator
  chained : List ChainCall

/-- The method `MegaBufferAllocator::Push`. `fresh` is the buffer the device allocator returns
if a new chunk is constructed, `poll i` answers the completion query made on the chunk at
position `i`. The result is `none` when the call dereferences a null `cycle` or an iterator
that points at no chunk. -/
def MegaBufferAllocator.Push (a : MegaBufferAllocator) (fresh : Buffer)
    (poll : Nat → FenceCycle → Bool → Bool) (cycle : Option FenceCycle) (data : List u8)
    (pageAlign : Bool) : Option AllocatorPushResult :=
  match a.chunks[a.activeChunk]? with
  | none => none
  | some c =>
    match c.Push cycle data pageAlign with
    | none => none
    | some r1 =>
      let chunks1 := a.chunks.set a.activeChunk r1.chunk
      if r1.offset ≠ 0 then
        some { outcome := .returned ⟨r1.chunk.GetBacking, r1.offset⟩,
               allocator := { chunks := chunks1, activeChunk := a.activeChunk },
               chained := r1.chained }
      else
        let next := reclaimOrGrow fresh poll chunks1
        match next.2[next.1]? with
        | none => none
        | some c2 =>
          match c2.Push cycle data pageAlign with
          | none => none
          | some r2 =>
            some { outcome :=
                     if r2.offset ≠ 0 then .returned ⟨r2.chunk.GetBacking, r2.offset⟩
                     else .thrown data.length,
                   allocator := { chunks := next.2.set next.1 r2.chunk, activeChunk := next.1 },
                   chained := r1.chained ++ r2.chained }

/-- The data-model invariant of a chunk: `freeRegion` is the suffix of `backing` that starts at
its cursor, and the cursor lies at or after the reserved leading page. -/
def MegaBufferChunk.Valid (c : MegaBufferChunk) : Prop :=
  PAGE_SIZE ≤ c.freeRegion.offset ∧ c.freeRegion.offset + c.freeRegion.size = MegaBufferChunkSize

instance (c : MegaBufferChunk) : Decidable c.Valid := by
  unfold MegaBufferChunk.Valid
  infer_instance

/-- The invariant of a chunk that only calls of `Push` with non-null tokens maintain: the
data-model invariant, and a chunk whose cycle is null has nothing allocated (its free region
is the backing minus the first page). -/
def MegaBufferChunk.ValidNonNull (c : MegaBufferChunk) : Prop :=
  c.Valid ∧ (c.cycle = none → c.freeRegion = c.backing.subspan PAGE_SIZE)

/-- The invariant of an allocator that only calls of `Push` with non-null tokens maintain:
`activeChunk` points at a chunk and every chunk satisfies its invariant. -/
def MegaBufferAllocator.ValidNonNull (a : MegaBufferAllocator) : Prop :=
  a.activeChunk < a.chunks.length ∧ ∀ c ∈ a.chunks, c.ValidNonNull

/-- The chunk states reachable from construction through calls of `Push` that return and calls
of `TryReset`, with any arguments and any answers of the completion query. -/
inductive MegaBufferChunk.Reachable : MegaBufferChunk → Prop
  | construct (backing : Buffer) : Reachable (MegaBufferChunk.construct backing)
  | push {c : MegaBufferChunk} {r : PushResult} (newCycle : Option FenceCycle) (data : List u8)
      (pageAlign : Bool) :
      Reachable c → c.Push newCycle data pageAlign = some r → Reachable r.chunk
  | tryReset {c : MegaBufferChunk} (poll : FenceCycle → Bool → Bool) :
      Reachable c → Reachable (c.TryReset poll).2

/-- The chunk states reachable from construction through calls of `Push` made with non-null
tokens and calls of `TryReset`, with any answers of the completion query. -/
inductive MegaBufferChunk.ReachableNonNull : MegaBufferChunk → Prop
  | construct (backing : Buffer) : ReachableNonNull (MegaBufferChunk.construct backing)
  | push {c : MegaBufferChunk} {r : PushResult} (t : FenceCycle) (data : List u8)
      (pageAlign : Bool) :
      ReachableNonNull c → c.Push (some t) data pageAlign = some r → ReachableNonNull r.chunk
  | tryReset {c : MegaBufferChunk} (poll : FenceCycle → Bool → Bool) :
      ReachableNonNull c → ReachableNonNull (c.TryReset poll).2

/-- What can happen to a chunk between two calls while it is not reset: calls of `Push` that
return, and calls of `TryReset` that do not take the resetting branch (lines 14 to 16). -/
inductive MegaBufferChunk.NoResetSteps : MegaBufferChunk → MegaBufferChunk → Prop
  | refl (c : MegaBufferChunk) : NoResetSteps c c
  | push {c c1 : MegaBufferChunk} {r : PushResult} (newCycle : Option FenceCycle)
      (data : List u8) (pageAlign : Bool) :
      NoResetSteps c c1 → c1.Push newCycle data pageAlign = some r → NoResetSteps c r.chunk
  | tryReset {c c1 : MegaBufferChunk} (poll : FenceCycle → Bool → Bool) :
      NoResetSteps c c1 → (∀ t, c1.cycle = some t → poll t true = false) →
      NoResetSteps c (c1.TryReset poll).2

/-- The allocator states reachable from construction through calls of `Push` made with
non-null tokens, whatever the completion queries answer and whatever buffers the device
allocator hands out. -/
inductive MegaBufferAllocator.ReachableNonNull : MegaBufferAllocator → Prop
  | construct (backing : Buffer) : ReachableNonNull (MegaBufferAllocator.construct backing)
  | push {a : MegaBufferAllocator} {r : AllocatorPushResult} (fresh : Buffer)
      (poll : Nat → FenceCycle → Bool → Bool) (t : FenceCycle) (data : List u8)
      (pageAlign : Bool) :
      ReachableNonNull a → a.Push fresh poll (some t) data pageAlign = some r →
      ReachableNonNull r.allocator

/-- The data-model invariant of an allocator: `activeChunk` points at a chunk and every chunk
satisfies the data-model invariant of chunks. -/
def MegaBufferAllocator.Valid (a : MegaBufferAllocator) : Prop :=
  a.activeChunk < a.chunks.length ∧ ∀ c ∈ a.chunks, c.Valid

/-- The allocator states reachable from construction through calls of `Push` that return or
throw, with any arguments, any answers of the completion queries and any buffers handed out by
the device allocator. -/
inductive MegaBufferAllocator.Reachable : MegaBufferAllocator → Prop
  | construct (backing : Buffer) : Reachable (MegaBufferAllocator.construct backing)
  | push {a : MegaBufferAllocator} {r : AllocatorPushResult} (fresh : Buffer)
      (poll : Nat → FenceCycle → Bool → Bool) (cycle : Option FenceCycle) (data : List u8)
      (pageAlign : Bool) :
      Reachable a → a.Push fresh poll cycle data pageAlign = some r → Reachable r.allocator

/-- What `subspan(offset)` requires of its argument: the offset lies inside the view. -/
def span.subspanInBounds (s : span) (offset : Nat) : Prop :=
  offset ≤ s.size

instance (s : span) (offset : Nat) : Decidable (s.subspanInBounds offset) := by
  unfold span.subspanInBounds
  infer_instance

/-- What `subspan(offset, count)` requires of its arguments: the `count` bytes from `offset`
on lie inside the view. -/
def span.subspanCountInBounds (s : span) (offset count : Nat) : Prop :=
  offset + count ≤ s.size

instance (s : span) (offset count : Nat) : Decidable (s.subspanCountInBounds offset count) := by
  unfold span.subspanCountInBounds
  infer_instance

/-- Every `subspan` that a call of `MegaBufferChunk::Push` takes is in bounds: the one of
line 30 when page aligned data is requested, and the ones of lines 42 and 46 when the size
check of line 33 passes. -/
def MegaBufferChunk.PushInBounds (c : MegaBufferChunk) (data : List u8) (pageAlign : Bool) :
    Prop :=
  (pageAlign = true →
    c.backing.view.subspanInBounds (AlignUp c.freeRegion.offset PAGE_SIZE)) ∧
  (data.length ≤ (c.alignFree pageAlign).freeRegion.size →
    (c.alignFree pageAlign).freeRegion.subspanCountInBounds 0 data.length ∧
    (c.alignFree pageAlign).freeRegion.subspanInBounds data.length)

instance (c : MegaBufferChunk) (data : List u8) (pageAlign : Bool) :
    Decidable (c.PushInBounds data pageAlign) := by
  unfold MegaBufferChunk.PushInBounds
  infer_instance

/-- The chunk states reachable from construction through `Push` and `TryReset`, each with the
answer to the question whether a call of `Push` has returned a non-zero offset since the
construction or since the last call of `TryReset` that returned true. -/
inductive MegaBufferChunk.ReachableWith : MegaBufferChunk → Bool → Prop
  | construct (backing : Buffer) : ReachableWith (MegaBufferChunk.construct backing) false
  | push {c : MegaBufferChunk} {allocated : Bool} {r : PushResult}
      (newCycle : Option FenceCycle) (data : List u8) (pageAlign : Bool) :
      ReachableWith c allocated → c.Push newCycle data pageAlign = some r →
      ReachableWith r.chunk (allocated || decide (r.offset ≠ 0))
  | tryReset {c : MegaBufferChunk} {allocated : Bool} (poll : FenceCycle → Bool → Bool) :
      ReachableWith c allocated →
      ReachableWith (c.TryReset poll).2 (allocated && !(c.TryReset poll).1)

/-- The same as `ReachableWith`, with every call of `Push` made with a non-null token. -/
inductive MegaBufferChunk.ReachableNonNullWith : MegaBufferChunk → Bool → Prop
  | construct (backing : Buffer) :
      ReachableNonNullWith (MegaBufferChunk.construct backing) false
  | push {c : MegaBufferChunk} {allocated : Bool} {r : PushResult}
      (t : FenceCycle) (data : List u8) (pageAlign : Bool) :
      ReachableNonNullWith c allocated → c.Push (some t) data pageAlign = some r →
      ReachableNonNullWith r.chunk (allocated || decide (r.offset ≠ 0))
  | tryReset {c : MegaBufferChunk} {allocated : Bool} (poll : FenceCycle → Bool → Bool) :
      ReachableNonNullWith c allocated →
      ReachableNonNullWith (c.TryReset poll).2 (allocated && !(c.TryReset poll).1)

/-- The backing of the chunk at position `j` before a call of the allocator's `Push`: the
backing of the existing chunk, or, for a chunk that the call appends, the buffer `fresh` as the
device allocator handed it out. -/
def MegaBufferAllocator.backingBefore (a : MegaBufferAllocator) (fresh : Buffer) (j : Nat) :
    Buffer :=
  match a.chunks[j]? with
  | some c => c.backing
  | none => fresh

/-! ## Facts about the constants and about `Push` used throughout -/

theorem AlignUp_page (value : Nat) :
    AlignUp value PAGE_SIZE = (value + 4095) / 4096 * 4096 := by
  simp [AlignUp, PAGE_SIZE]

theorem chunkSize_eq : MegaBufferChunkSize = 26214400 := by
  simp [MegaBufferChunkSize]

theorem MegaBufferChunk.alignFree_false (c : MegaBufferChunk) : c.alignFree false = c := by
  simp [MegaBufferChunk.alignFree]

theorem MegaBufferChunk.alignFree_true (c : MegaBufferChunk) :
    c.alignFree true =
      { c with freeRegion := ⟨(c.freeRegion.offset + 4095) / 4096 * 4096,
                              26214400 - (c.freeRegion.offset + 4095) / 4096 * 4096⟩ } := by
  simp [MegaBufferChunk.alignFree, AlignUp_page, Buffer.subspan, Buffer.view, span.subspan,
    chunkSize_eq]

theorem MegaBufferChunk.alignFree_backing (c : MegaBufferChunk) (pageAlign : Bool) :
    (c.alignFree pageAlign).backing = c.backing := by
  cases pageAlign <;> simp [MegaBufferChunk.alignFree]

theorem MegaBufferChunk.alignFree_cycle (c : MegaBufferChunk) (pageAlign : Bool) :
    (c.alignFree pageAlign).cycle = c.cycle := by
  cases pageAlign <;> simp [MegaBufferChunk.alignFree]

/-- Aligning never moves the cursor backwards. -/
theorem MegaBufferChunk.alignFree_offset_le (c : MegaBufferChunk) (pageAlign : Bool) :
    c.freeRegion.offset ≤ (c.alignFree pageAlign).freeRegion.offset := by
  cases pageAlign
  · simp [MegaBufferChunk.alignFree_false]
  · simp only [MegaBufferChunk.alignFree_true]
    omega

/-- Aligning keeps the data-model invariant: the chunk size is a multiple of the page size. -/
theorem MegaBufferChunk.alignFree_valid {c : MegaBufferChunk} (pageAlign : Bool)
    (h : c.Valid) : (c.alignFree pageAlign).Valid := by
  cases pageAlign
  · simpa [MegaBufferChunk.alignFree_false] using h
  · obtain ⟨h1, h2⟩ := h
    simp only [MegaBufferChunk.Valid, PAGE_SIZE, chunkSize_eq] at h1 h2 ⊢
    simp only [MegaBufferChunk.alignFree_true]
    omega

/-- The two ways a call of `Push` returns: the early return of line 34, or the allocation of
lines 36 to 47. -/
theorem MegaBufferChunk.Push_cases {c : MegaBufferChunk} {newCycle : Option FenceCycle}
    {data : List u8} {pageAlign : Bool} {r : PushResult}
    (h : c.Push newCycle data pageAlign = some r) :
    (data.length > (c.alignFree pageAlign).freeRegion.size ∧
      r.offset = 0 ∧ r.chunk = c.alignFree pageAlign ∧ r.chained = []) ∨
    (data.length ≤ (c.alignFree pageAlign).freeRegion.size ∧
      r.offset = (c.alignFree pageAlign).freeRegion.offset ∧
      r.chunk.backing = c.backing.copy_from
        ⟨(c.alignFree pageAlign).freeRegion.offset, data.length⟩ data ∧
      r.chunk.freeRegion = ⟨(c.alignFree pageAlign).freeRegion.offset + data.length,
        (c.alignFree pageAlign).freeRegion.size - data.length⟩ ∧
      r.chunk.cycle = newCycle ∧
      r.chained = match newCycle with
        | some t => if c.cycle = some t then [] else [⟨t, c.cycle⟩]
        | none => []) := by
  unfold MegaBufferChunk.Push at h
  simp only [] at h
  split_ifs at h with h1 h2
  · left
    cases h
    exact ⟨h1, rfl, rfl, rfl⟩
  · right
    cases newCycle with
    | none => simp at h
    | some t =>
      simp only [Option.some.injEq] at h
      subst h
      rw [MegaBufferChunk.alignFree_cycle] at h2
      simp [span.subspanCount, span.subspan, MegaBufferChunk.alignFree_backing,
        MegaBufferChunk.alignFree_cycle, h2]
      omega
  · right
    simp only [Option.some.injEq] at h
    subst h
    rw [MegaBufferChunk.alignFree_cycle, ne_eq, not_not] at h2
    cases newCycle with
    | none =>
      simp [span.subspanCount, span.subspan, MegaBufferChunk.alignFree_backing,
        MegaBufferChunk.alignFree_cycle, h2]
      omega
    | some t =>
      simp [span.subspanCount, span.subspan, MegaBufferChunk.alignFree_backing,
        MegaBufferChunk.alignFree_cycle, h2]
      omega

/-- A call of `Push` with a non-null token always returns. -/
theorem MegaBufferChunk.Push_some_isSome (c : MegaBufferChunk) (t : FenceCycle) (data : List u8)
    (pageAlign : Bool) : ∃ r, c.Push (some t) data pageAlign = some r := by
  unfold MegaBufferChunk.Push
  simp only []
  split_ifs <;> exact ⟨_, rfl⟩

/-- A call of `Push` on a chunk whose cycle is null always returns. -/
theorem MegaBufferChunk.Push_null_cycle_isSome (c : MegaBufferChunk) (hc : c.cycle = none)
    (newCycle : Option FenceCycle) (data : List u8) (pageAlign : Bool) :
    ∃ r, c.Push newCycle data pageAlign = some r := by
  cases newCycle with
  | some t => exact c.Push_some_isSome t data pageAlign
  | none =>
    unfold MegaBufferChunk.Push
    simp only [MegaBufferChunk.alignFree_cycle, hc]
    split_ifs
    · exact ⟨_, rfl⟩
    · exact absurd rfl ‹_›
    · exact ⟨_, rfl⟩

theorem MegaBufferChunk.construct_valid (backing : Buffer) :
    (MegaBufferChunk.construct backing).Valid := by
  simp only [MegaBufferChunk.Valid, MegaBufferChunk.construct, Buffer.subspan, Buffer.view,
    span.subspan, PAGE_SIZE, chunkSize_eq]
  exact ⟨by omega, trivial⟩

theorem MegaBufferChunk.Push_valid {c : MegaBufferChunk} {newCycle : Option FenceCycle}
    {data : List u8} {pageAlign : Bool} {r : PushResult} (hv : c.Valid)
    (h : c.Push newCycle data pageAlign = some r) : r.chunk.Valid := by
  have ha := MegaBufferChunk.alignFree_valid pageAlign hv
  rcases MegaBufferChunk.Push_cases h with ⟨_, _, hc, _⟩ | ⟨hle, _, _, hf, _, _⟩
  · rw [hc]; exact ha
  · obtain ⟨h1, h2⟩ := ha
    simp only [MegaBufferChunk.Valid, hf]
    omega

theorem MegaBufferChunk.TryReset_valid {c : MegaBufferChunk} (poll : FenceCycle → Bool → Bool)
    (hv : c.Valid) : (c.TryReset poll).2.Valid := by
  unfold MegaBufferChunk.TryReset
  split
  · split_ifs
    · simp only [MegaBufferChunk.Valid, Buffer.subspan, Buffer.view, span.subspan, PAGE_SIZE,
        chunkSize_eq]
      exact ⟨by omega, trivial⟩
    · exact hv
  · exact hv

/-- Every reachable chunk state satisfies the data-model invariant. -/
theorem MegaBufferChunk.Reachable.chunkValid {c : MegaBufferChunk} (h : c.Reachable) : c.Valid := by
  induction h with
  | construct backing => exact MegaBufferChunk.construct_valid backing
  | push newCycle data pageAlign _ hp ih => exact MegaBufferChunk.Push_valid ih hp
  | tryReset poll _ ih => exact MegaBufferChunk.TryReset_valid poll ih

/-- A call of `Push` never moves the cursor backwards. -/
theorem MegaBufferChunk.Push_offset_le {c : MegaBufferChunk} {newCycle : Option FenceCycle}
    {data : List u8} {pageAlign : Bool} {r : PushResult}
    (h : c.Push newCycle data pageAlign = some r) :
    c.freeRegion.offset ≤ r.chunk.freeRegion.offset := by
  have ha := c.alignFree_offset_le pageAlign
  rcases MegaBufferChunk.Push_cases h with ⟨_, _, hc, _⟩ | ⟨_, _, _, hf, _, _⟩
  · rw [hc]; exact ha
  · rw [hf]; simp only []; omega

/-- A call of `TryReset` that does not take the resetting branch leaves the chunk as it is. -/
theorem MegaBufferChunk.TryReset_no_reset {c : MegaBufferChunk} {poll : FenceCycle → Bool → Bool}
    (h : ∀ t, c.cycle = some t → poll t true = false) : (c.TryReset poll).2 = c := by
  unfold MegaBufferChunk.TryReset
  split
  · next t ht => simp [h t ht]
  · rfl

/-- After a call of `TryReset` that returns true the cycle is null. -/
theorem MegaBufferChunk.TryReset_true_cycle {c : MegaBufferChunk}
    {poll : FenceCycle → Bool → Bool} (h : (c.TryReset poll).1 = true) :
    (c.TryReset poll).2.cycle = none := by
  cases hcy : c.cycle with
  | none => simp [MegaBufferChunk.TryReset, hcy]
  | some t =>
    by_cases hp : poll t true = true
    · simp [MegaBufferChunk.TryReset, hcy, hp]
    · simp [MegaBufferChunk.TryReset, hcy, hp] at h

/-- While a chunk is not reset its cursor never moves backwards. -/
theorem MegaBufferChunk.NoResetSteps.offset_le {c c2 : MegaBufferChunk}
    (h : MegaBufferChunk.NoResetSteps c c2) : c.freeRegion.offset ≤ c2.freeRegion.offset := by
  induction h with
  | refl => exact Nat.le_refl _
  | push newCycle data pageAlign _ hp ih => exact Nat.le_trans ih (MegaBufferChunk.Push_offset_le hp)
  | tryReset poll _ hno ih => rw [MegaBufferChunk.TryReset_no_reset hno]; exact ih

/-- The free region of a chunk in the state the constructor and the reset establish. -/
theorem Buffer.subspan_page (b : Buffer) : b.subspan PAGE_SIZE = ⟨4096, 26210304⟩ := by
  simp only [Buffer.subspan, Buffer.view, span.subspan, PAGE_SIZE, chunkSize_eq]

/-- Page alignment leaves a chunk whose cursor is at the first page boundary as it is. -/
theorem MegaBufferChunk.alignFree_pristine {c : MegaBufferChunk}
    (hf : c.freeRegion = c.backing.subspan PAGE_SIZE) (pageAlign : Bool) :
    c.alignFree pageAlign = c := by
  cases pageAlign
  · exact c.alignFree_false
  · rw [MegaBufferChunk.alignFree_true]
    rw [Buffer.subspan_page] at hf
    have e1 : (4096 + 4095) / 4096 * 4096 = 4096 := by omega
    have e2 : 26214400 - 4096 = 26210304 := by omega
    cases c
    simp only [] at hf
    subst hf
    simp only [e1, e2]

/-- On a chunk whose free region is the backing minus its first page, a request of at most
`C - P` bytes is allocated at offset `P`. -/
theorem MegaBufferChunk.Push_pristine {c : MegaBufferChunk}
    (hf : c.freeRegion = c.backing.subspan PAGE_SIZE) {newCycle : Option FenceCycle}
    {data : List u8} {pageAlign : Bool} {r : PushResult}
    (hn : data.length ≤ MegaBufferChunkSize - PAGE_SIZE)
    (h : c.Push newCycle data pageAlign = some r) : r.offset = PAGE_SIZE := by
  have ha := MegaBufferChunk.alignFree_pristine hf pageAlign
  rw [Buffer.subspan_page] at hf
  simp only [PAGE_SIZE, chunkSize_eq] at hn ⊢
  rcases MegaBufferChunk.Push_cases h with ⟨hgt, _, _, _⟩ | ⟨_, ho, _, _, _, _⟩
  · rw [ha, hf] at hgt
    simp only [] at hgt
    omega
  · rw [ho, ha, hf]

/-- In a chunk state reachable with non-null tokens a null cycle means that nothing has been
allocated since construction or the last reset: the free region is the backing minus its first
page. -/
theorem MegaBufferChunk.ReachableNonNull.null_cycle {c : MegaBufferChunk}
    (h : c.ReachableNonNull) : c.cycle = none → c.freeRegion = c.backing.subspan PAGE_SIZE := by
  induction h with
  | construct backing => intro _; rfl
  | @push c r t data pageAlign _ hp ih =>
    intro hnone
    rcases MegaBufferChunk.Push_cases hp with ⟨_, _, hc, _⟩ | ⟨_, _, _, _, hcy, _⟩
    · rw [hc] at hnone ⊢
      rw [MegaBufferChunk.alignFree_cycle] at hnone
      rw [MegaBufferChunk.alignFree_pristine (ih hnone)]
      exact ih hnone
    · rw [hcy] at hnone
      cases hnone
  | @tryReset c poll _ ih =>
    intro hnone
    cases hcy : c.cycle with
    | none =>
      have hsame : (c.TryReset poll).2 = c := by simp [MegaBufferChunk.TryReset, hcy]
      rw [hsame]
      exact ih hcy
    | some t =>
      by_cases hp : poll t true = true
      · simp [MegaBufferChunk.TryReset, hcy, hp]
      · simp [MegaBufferChunk.TryReset, hcy, hp] at hnone

/-- A request that fits behind the cursor even after page alignment is allocated: the offset
is not 0 and the cursor moves by at most the alignment gap and the data. -/
theorem MegaBufferChunk.Push_small {c : MegaBufferChunk} {newCycle : Option FenceCycle}
    {data : List u8} {pageAlign : Bool} {r : PushResult} (hv : c.Valid)
    (hn : c.freeRegion.offset + 4095 + data.length ≤ MegaBufferChunkSize)
    (h : c.Push newCycle data pageAlign = some r) :
    r.offset ≠ 0 ∧ r.chunk.freeRegion.offset ≤ c.freeRegion.offset + 4095 + data.length := by
  obtain ⟨hP, hS⟩ := MegaBufferChunk.alignFree_valid pageAlign hv
  have hup : (c.alignFree pageAlign).freeRegion.offset ≤ c.freeRegion.offset + 4095 := by
    cases pageAlign
    · simp [MegaBufferChunk.alignFree_false]
    · simp only [MegaBufferChunk.alignFree_true]
      omega
  simp only [PAGE_SIZE, chunkSize_eq] at hP hS hn
  rcases MegaBufferChunk.Push_cases h with ⟨hgt, _, _, _⟩ | ⟨_, ho, _, hf, _, _⟩
  · omega
  · rw [ho, hf]
    simp only []
    constructor <;> omega

/-! ## Facts about the scan of the chunk list and about the allocator's `Push` -/

/-- A call of `TryReset` that returns false leaves the chunk as it is. -/
theorem MegaBufferChunk.TryReset_false_snd {c : MegaBufferChunk}
    {poll : FenceCycle → Bool → Bool} (h : (c.TryReset poll).1 = false) :
    (c.TryReset poll).2 = c := by
  cases hcy : c.cycle with
  | none => simp [MegaBufferChunk.TryReset, hcy]
  | some t =>
    by_cases hp : poll t true = true
    · simp [MegaBufferChunk.TryReset, hcy, hp] at h
    · simp [MegaBufferChunk.TryReset, hcy, hp]

theorem findTryReset_length (poll : Nat → FenceCycle → Bool → Bool)
    (cs : List MegaBufferChunk) : (findTryReset poll cs).2.length = cs.length := by
  induction cs generalizing poll with
  | nil => rfl
  | cons c cs ih =>
    unfold findTryReset
    split_ifs
    · rfl
    · simp only [List.length_cons, ih]

theorem findTryReset_le (poll : Nat → FenceCycle → Bool → Bool)
    (cs : List MegaBufferChunk) : (findTryReset poll cs).1 ≤ cs.length := by
  induction cs generalizing poll with
  | nil => exact Nat.le_refl _
  | cons c cs ih =>
    unfold findTryReset
    split_ifs
    · exact Nat.zero_le _
    · simp only [List.length_cons]
      exact Nat.succ_le_succ (ih _)

/-- Every chunk before the position found had `TryReset` return false and is unchanged. -/
theorem findTryReset_before (poll : Nat → FenceCycle → Bool → Bool)
    (cs : List MegaBufferChunk) (j : Nat) (c : MegaBufferChunk) (hc : cs[j]? = some c)
    (hj : j < (findTryReset poll cs).1) :
    (c.TryReset (poll j)).1 = false ∧ (findTryReset poll cs).2[j]? = some c := by
  induction cs generalizing poll j with
  | nil => simp at hc
  | cons c0 cs ih =>
    unfold findTryReset at hj ⊢
    split_ifs at hj ⊢ with h0
    · simp at hj
    · cases j with
      | zero =>
        simp only [List.getElem?_cons_zero, Option.some.injEq] at hc ⊢
        subst hc
        have hf : (c0.TryReset (poll 0)).1 = false := by simpa using h0
        exact ⟨hf, MegaBufferChunk.TryReset_false_snd hf⟩
      | succ j =>
        simp only [List.getElem?_cons_succ] at hc ⊢
        exact ih (fun i => poll (i + 1)) j hc (by simpa using hj)

/-- The chunk at the position found had `TryReset` return true and holds the result of that
call. -/
theorem findTryReset_at (poll : Nat → FenceCycle → Bool → Bool)
    (cs : List MegaBufferChunk) (c : MegaBufferChunk)
    (hc : cs[(findTryReset poll cs).1]? = some c) :
    (c.TryReset (poll (findTryReset poll cs).1)).1 = true ∧
    (findTryReset poll cs).2[(findTryReset poll cs).1]? =
      some (c.TryReset (poll (findTryReset poll cs).1)).2 := by
  induction cs generalizing poll with
  | nil => simp at hc
  | cons c0 cs ih =>
    unfold findTryReset at hc ⊢
    split_ifs at hc ⊢ with h0
    · simp only [List.getElem?_cons_zero, Option.some.injEq] at hc ⊢
      subst hc
      exact ⟨h0, rfl⟩
    · simp only [List.getElem?_cons_succ] at hc ⊢
      exact ih (fun i => poll (i + 1)) hc

/-- No chunk after the position found is touched. -/
theorem findTryReset_after (poll : Nat → FenceCycle → Bool → Bool)
    (cs : List MegaBufferChunk) (j : Nat) (hj : (findTryReset poll cs).1 < j) :
    (findTryReset poll cs).2[j]? = cs[j]? := by
  induction cs generalizing poll j with
  | nil => rfl
  | cons c0 cs ih =>
    unfold findTryReset at hj ⊢
    split_ifs at hj ⊢ with h0
    · cases j with
      | zero => simp at hj
      | succ j => simp
    · cases j with
      | zero => simp at hj
      | succ j =>
        simp only [List.getElem?_cons_succ]
        exact ih (fun i => poll (i + 1)) j (by simpa using hj)

/-- A property of chunks that `TryReset` keeps holds for every chunk after the scan. -/
theorem findTryReset_forall (poll : Nat → FenceCycle → Bool → Bool)
    (cs : List MegaBufferChunk) (good : MegaBufferChunk → Prop)
    (hstep : ∀ (c : MegaBufferChunk) (q : FenceCycle → Bool → Bool),
      good c → good (c.TryReset q).2)
    (h : ∀ c ∈ cs, good c) : ∀ c ∈ (findTryReset poll cs).2, good c := by
  induction cs generalizing poll with
  | nil => intro c hc; simp [findTryReset] at hc
  | cons c0 cs ih =>
    have h0 := h c0 (List.mem_cons_self _ _)
    have hrest : ∀ c ∈ cs, good c := fun c hc => h c (List.mem_cons_of_mem _ hc)
    unfold findTryReset
    split_ifs
    · intro c hc
      simp only [List.mem_cons] at hc
      rcases hc with rfl | hc
      · exact hstep _ _ h0
      · exact hrest c hc
    · intro c hc
      simp only [List.mem_cons] at hc
      rcases hc with rfl | hc
      · exact hstep _ _ h0
      · exact ih _ hrest c hc

/-- After lines 68 to 70 `activeChunk` points at a chunk: the result of the first `TryReset`
that returned true, or the chunk just constructed. -/
theorem reclaimOrGrow_active (fresh : Buffer) (poll : Nat → FenceCycle → Bool → Bool)
    (cs : List MegaBufferChunk) :
    (∃ c, cs[(findTryReset poll cs).1]? = some c ∧
      (c.TryReset (poll (findTryReset poll cs).1)).1 = true ∧
      reclaimOrGrow fresh poll cs = findTryReset poll cs ∧
      (reclaimOrGrow fresh poll cs).2[(reclaimOrGrow fresh poll cs).1]? =
        some (c.TryReset (poll (findTryReset poll cs).1)).2) ∨
    ((findTryReset poll cs).1 = cs.length ∧
      reclaimOrGrow fresh poll cs =
        (cs.length, (findTryReset poll cs).2 ++ [MegaBufferChunk.construct fresh]) ∧
      (reclaimOrGrow fresh poll cs).2[(reclaimOrGrow fresh poll cs).1]? =
        some (MegaBufferChunk.construct fresh)) := by
  have hlen := findTryReset_length poll cs
  have hle := findTryReset_le poll cs
  by_cases hend : (findTryReset poll cs).1 = cs.length
  · right
    have hr : reclaimOrGrow fresh poll cs =
        (cs.length, (findTryReset poll cs).2 ++ [MegaBufferChunk.construct fresh]) := by
      simp [reclaimOrGrow, hlen, hend]
    refine ⟨hend, hr, ?_⟩
    rw [hr]
    simp only []
    rw [List.getElem?_append_right (by omega)]
    simp [hlen]
  · left
    have hlt : (findTryReset poll cs).1 < cs.length := by omega
    have hr : reclaimOrGrow fresh poll cs = findTryReset poll cs := by
      simp [reclaimOrGrow, hlen, hend]
    have hget : cs[(findTryReset poll cs).1]? = some (cs.get ⟨_, hlt⟩) :=
      List.getElem?_eq_getElem hlt
    obtain ⟨h1, h2⟩ := findTryReset_at poll cs _ hget
    exact ⟨_, hget, h1, hr, by rw [hr]; exact h2⟩

/-- The ways a call of the allocator's `Push` returns or throws. -/
theorem MegaBufferAllocator.allocatorPush_cases {a : MegaBufferAllocator} {fresh : Buffer}
    {poll : Nat → FenceCycle → Bool → Bool} {cycle : Option FenceCycle} {data : List u8}
    {pageAlign : Bool} {r : AllocatorPushResult}
    (h : a.Push fresh poll cycle data pageAlign = some r) :
    ∃ c r1, a.chunks[a.activeChunk]? = some c ∧ c.Push cycle data pageAlign = some r1 ∧
      ((r1.offset ≠ 0 ∧
        r.outcome = .returned ⟨r1.chunk.GetBacking, r1.offset⟩ ∧
        r.allocator = ⟨a.chunks.set a.activeChunk r1.chunk, a.activeChunk⟩ ∧
        r.chained = r1.chained) ∨
       (r1.offset = 0 ∧ ∃ c2 r2,
        (reclaimOrGrow fresh poll (a.chunks.set a.activeChunk r1.chunk)).2[
          (reclaimOrGrow fresh poll (a.chunks.set a.activeChunk r1.chunk)).1]? = some c2 ∧
        c2.Push cycle data pageAlign = some r2 ∧
        r.outcome = (if r2.offset ≠ 0 then .returned ⟨r2.chunk.GetBacking, r2.offset⟩
          else .thrown data.length) ∧
        r.allocator =
          ⟨(reclaimOrGrow fresh poll (a.chunks.set a.activeChunk r1.chunk)).2.set
            (reclaimOrGrow fresh poll (a.chunks.set a.activeChunk r1.chunk)).1 r2.chunk,
           (reclaimOrGrow fresh poll (a.chunks.set a.activeChunk r1.chunk)).1⟩ ∧
        r.chained = r1.chained ++ r2.chained)) := by
  unfold MegaBufferAllocator.Push at h
  cases hc : a.chunks[a.activeChunk]? with
  | none => simp [hc] at h
  | some c =>
    simp only [hc] at h
    cases hr1 : c.Push cycle data pageAlign with
    | none => simp [hr1] at h
    | some r1 =>
      simp only [hr1] at h
      refine ⟨c, r1, rfl, hr1, ?_⟩
      split_ifs at h with ho
      · left
        simp only [Option.some.injEq] at h
        subst h
        exact ⟨ho, rfl, rfl, rfl⟩
      · right
        have ho0 : r1.offset = 0 := by simpa using ho
        cases hc2 : (reclaimOrGrow fresh poll (a.chunks.set a.activeChunk r1.chunk)).2[
            (reclaimOrGrow fresh poll (a.chunks.set a.activeChunk r1.chunk)).1]? with
        | none => simp [hc2] at h
        | some c2 =>
          simp only [hc2] at h
          cases hr2 : c2.Push cycle data pageAlign with
          | none => simp [hr2] at h
          | some r2 =>
            simp only [hr2, Option.some.injEq] at h
            subst h
            exact ⟨ho0, c2, r2, rfl, hr2, rfl, rfl, rfl⟩

/-! ## The invariant kept by pushes with non-null tokens -/

theorem MegaBufferChunk.construct_validNonNull (backing : Buffer) :
    (MegaBufferChunk.construct backing).ValidNonNull :=
  ⟨MegaBufferChunk.construct_valid backing, fun _ => rfl⟩

theorem MegaBufferChunk.Push_validNonNull {c : MegaBufferChunk} {t : FenceCycle}
    {data : List u8} {pageAlign : Bool} {r : PushResult} (hv : c.ValidNonNull)
    (h : c.Push (some t) data pageAlign = some r) : r.chunk.ValidNonNull := by
  refine ⟨MegaBufferChunk.Push_valid hv.1 h, ?_⟩
  intro hnone
  rcases MegaBufferChunk.Push_cases h with ⟨_, _, hc, _⟩ | ⟨_, _, _, _, hcy, _⟩
  · rw [hc] at hnone ⊢
    rw [MegaBufferChunk.alignFree_cycle] at hnone
    rw [MegaBufferChunk.alignFree_pristine (hv.2 hnone)]
    exact hv.2 hnone
  · rw [hcy] at hnone
    cases hnone

theorem MegaBufferChunk.TryReset_validNonNull (c : MegaBufferChunk)
    (poll : FenceCycle → Bool → Bool) (hv : c.ValidNonNull) :
    (c.TryReset poll).2.ValidNonNull := by
  refine ⟨MegaBufferChunk.TryReset_valid poll hv.1, ?_⟩
  intro hnone
  cases hcy : c.cycle with
  | none =>
    have hsame : (c.TryReset poll).2 = c := by simp [MegaBufferChunk.TryReset, hcy]
    rw [hsame]
    exact hv.2 hcy
  | some t =>
    by_cases hp : poll t true = true
    · simp [MegaBufferChunk.TryReset, hcy, hp]
    · simp [MegaBufferChunk.TryReset, hcy, hp] at hnone

/-- A chunk on which `TryReset` returned true is in the state the constructor establishes,
provided the chunk satisfied the invariant. -/
theorem MegaBufferChunk.TryReset_true_pristine {c : MegaBufferChunk}
    {poll : FenceCycle → Bool → Bool} (hv : c.ValidNonNull)
    (h : (c.TryReset poll).1 = true) :
    (c.TryReset poll).2.freeRegion = (c.TryReset poll).2.backing.subspan PAGE_SIZE ∧
    (c.TryReset poll).2.cycle = none :=
  ⟨(c.TryReset_validNonNull poll hv).2 (MegaBufferChunk.TryReset_true_cycle h),
    MegaBufferChunk.TryReset_true_cycle h⟩

/-- On a chunk whose free region is the backing minus its first page `Push` allocates exactly
the requests of at most `C - P` bytes. -/
theorem MegaBufferChunk.Push_pristine_iff {c : MegaBufferChunk}
    (hf : c.freeRegion = c.backing.subspan PAGE_SIZE) {newCycle : Option FenceCycle}
    {data : List u8} {pageAlign : Bool} {r : PushResult}
    (h : c.Push newCycle data pageAlign = some r) :
    r.offset ≠ 0 ↔ data.length ≤ MegaBufferChunkSize - PAGE_SIZE := by
  constructor
  · intro ho
    have ha := MegaBufferChunk.alignFree_pristine hf pageAlign
    rw [Buffer.subspan_page] at hf
    simp only [PAGE_SIZE, chunkSize_eq]
    rcases MegaBufferChunk.Push_cases h with ⟨_, ho0, _, _⟩ | ⟨hle, _, _, _, _, _⟩
    · exact absurd ho0 ho
    · rw [ha, hf] at hle
      simp only [] at hle
      omega
  · intro hn
    rw [MegaBufferChunk.Push_pristine hf hn h]
    simp only [PAGE_SIZE]
    omega

/-- A non-zero offset returned on a chunk that satisfies the data-model invariant is for a
request of at most `C - P` bytes. -/
theorem MegaBufferChunk.Push_ne_zero_size {c : MegaBufferChunk} (hv : c.Valid)
    {newCycle : Option FenceCycle} {data : List u8} {pageAlign : Bool} {r : PushResult}
    (h : c.Push newCycle data pageAlign = some r) (ho : r.offset ≠ 0) :
    data.length ≤ MegaBufferChunkSize - PAGE_SIZE := by
  obtain ⟨hP, hS⟩ := MegaBufferChunk.alignFree_valid pageAlign hv
  simp only [PAGE_SIZE, chunkSize_eq] at hP hS ⊢
  rcases MegaBufferChunk.Push_cases h with ⟨_, ho0, _, _⟩ | ⟨hle, _, _, _, _, _⟩
  · exact absurd ho0 ho
  · omega

theorem MegaBufferAllocator.allocatorConstruct_validNonNull (backing : Buffer) :
    (MegaBufferAllocator.construct backing).ValidNonNull := by
  refine ⟨by simp [MegaBufferAllocator.construct], ?_⟩
  intro c hc
  simp only [MegaBufferAllocator.construct, List.mem_singleton] at hc
  rw [hc]
  exact MegaBufferChunk.construct_validNonNull backing

/-- Replacing one chunk by a chunk that satisfies a property keeps the property of all. -/
theorem forall_mem_set {good : MegaBufferChunk → Prop} {cs : List MegaBufferChunk}
    (h : ∀ c ∈ cs, good c) (i : Nat) {x : MegaBufferChunk} (hx : good x) :
    ∀ c ∈ cs.set i x, good c := by
  intro c hc
  rcases List.mem_or_eq_of_mem_set hc with hc | rfl
  · exact h c hc
  · exact hx

/-- After lines 68 to 70, from chunks that satisfy the invariant: all chunks still satisfy it,
`activeChunk` points at a chunk, and that chunk is in the state the constructor establishes. -/
theorem reclaimOrGrow_validNonNull (fresh : Buffer) (poll : Nat → FenceCycle → Bool → Bool)
    {cs : List MegaBufferChunk} (h : ∀ c ∈ cs, c.ValidNonNull) :
    (∀ c ∈ (reclaimOrGrow fresh poll cs).2, c.ValidNonNull) ∧
    (reclaimOrGrow fresh poll cs).1 < (reclaimOrGrow fresh poll cs).2.length ∧
    ∃ c2, (reclaimOrGrow fresh poll cs).2[(reclaimOrGrow fresh poll cs).1]? = some c2 ∧
      c2.freeRegion = c2.backing.subspan PAGE_SIZE ∧ c2.cycle = none := by
  have hall := findTryReset_forall poll cs MegaBufferChunk.ValidNonNull
    (fun c q hc => c.TryReset_validNonNull q hc) h
  have hlen := findTryReset_length poll cs
  rcases reclaimOrGrow_active fresh poll cs with ⟨c, hc, htrue, hr, hget⟩ | ⟨hend, hr, hget⟩
  · have hcv : c.ValidNonNull := h c (List.getElem?_mem hc)
    refine ⟨by rw [hr]; exact hall, ?_, _, hget, MegaBufferChunk.TryReset_true_pristine hcv htrue⟩
    rw [hr, hlen]
    by_contra hge
    rw [List.getElem?_eq_none (by omega)] at hc
    cases hc
  · refine ⟨?_, ?_, _, hget, rfl, rfl⟩
    · rw [hr]
      intro c hc
      simp only [List.mem_append, List.mem_singleton] at hc
      rcases hc with hc | rfl
      · exact hall c hc
      · exact MegaBufferChunk.construct_validNonNull fresh
    · rw [hr]
      simp [hlen]

theorem MegaBufferAllocator.allocatorPush_validNonNull {a : MegaBufferAllocator} {fresh : Buffer}
    {poll : Nat → FenceCycle → Bool → Bool} {t : FenceCycle} {data : List u8}
    {pageAlign : Bool} {r : AllocatorPushResult} (hv : a.ValidNonNull)
    (h : a.Push fresh poll (some t) data pageAlign = some r) : r.allocator.ValidNonNull := by
  obtain ⟨c, r1, hc, hr1, hcase⟩ := MegaBufferAllocator.allocatorPush_cases h
  have hcv : c.ValidNonNull := hv.2 c (List.getElem?_mem hc)
  have h1 : ∀ c ∈ a.chunks.set a.activeChunk r1.chunk, c.ValidNonNull :=
    forall_mem_set hv.2 _ (MegaBufferChunk.Push_validNonNull hcv hr1)
  rcases hcase with ⟨_, _, hal, _⟩ | ⟨_, c2, r2, hc2, hr2, _, hal, _⟩
  · rw [hal]
    exact ⟨by simpa using hv.1, h1⟩
  · obtain ⟨hall, hlt, _⟩ := reclaimOrGrow_validNonNull fresh poll h1
    have hc2v : c2.ValidNonNull := hall c2 (List.getElem?_mem hc2)
    rw [hal]
    exact ⟨by simpa using hlt,
      forall_mem_set hall _ (MegaBufferChunk.Push_validNonNull hc2v hr2)⟩

/-- Every allocator state reachable with non-null tokens satisfies the invariant. -/
theorem MegaBufferAllocator.ReachableNonNull.allocatorValidNonNull {a : MegaBufferAllocator}
    (h : a.ReachableNonNull) : a.ValidNonNull := by
  induction h with
  | construct backing => exact MegaBufferAllocator.allocatorConstruct_validNonNull backing
  | push fresh poll t data pageAlign _ hp ih => exact MegaBufferAllocator.allocatorPush_validNonNull ih hp

/-- From an allocator state that satisfies the invariant a call of `Push` with a non-null token
returns or throws; it never dereferences a null pointer or an end iterator. -/
theorem MegaBufferAllocator.allocatorPush_some_isSome {a : MegaBufferAllocator} (hv : a.ValidNonNull)
    (fresh : Buffer) (poll : Nat → FenceCycle → Bool → Bool) (t : FenceCycle) (data : List u8)
    (pageAlign : Bool) : ∃ r, a.Push fresh poll (some t) data pageAlign = some r := by
  have hc : a.chunks[a.activeChunk]? = some (a.chunks.get ⟨_, hv.1⟩) :=
    List.getElem?_eq_getElem hv.1
  obtain ⟨r1, hr1⟩ := (a.chunks.get ⟨_, hv.1⟩).Push_some_isSome t data pageAlign
  by_cases ho : r1.offset ≠ 0
  · rw [← Option.isSome_iff_exists]
    unfold MegaBufferAllocator.Push
    simp only [hc, hr1]
    rw [if_pos ho]
    rfl
  · have h1 : ∀ c ∈ a.chunks.set a.activeChunk r1.chunk, c.ValidNonNull :=
      forall_mem_set hv.2 _
        (MegaBufferChunk.Push_validNonNull (hv.2 _ (List.getElem?_mem hc)) hr1)
    obtain ⟨_, _, c2, hc2, _, _⟩ := reclaimOrGrow_validNonNull fresh poll h1
    obtain ⟨r2, hr2⟩ := c2.Push_some_isSome t data pageAlign
    rw [← Option.isSome_iff_exists]
    unfold MegaBufferAllocator.Push
    simp only [hc, hr1]
    rw [if_neg ho]
    simp only [hc2, hr2]
    rfl

/-! ## The data-model invariant of the allocator and chunks that are not reclaimed -/

theorem reclaimOrGrow_valid (fresh : Buffer) (poll : Nat → FenceCycle → Bool → Bool)
    {cs : List MegaBufferChunk} (h : ∀ c ∈ cs, c.Valid) :
    (∀ c ∈ (reclaimOrGrow fresh poll cs).2, c.Valid) ∧
    (reclaimOrGrow fresh poll cs).1 < (reclaimOrGrow fresh poll cs).2.length := by
  have hall := findTryReset_forall poll cs MegaBufferChunk.Valid
    (fun c q hc => MegaBufferChunk.TryReset_valid q hc) h
  have hlen := findTryReset_length poll cs
  rcases reclaimOrGrow_active fresh poll cs with ⟨c, hc, _, hr, _⟩ | ⟨_, hr, _⟩
  · refine ⟨by rw [hr]; exact hall, ?_⟩
    rw [hr, hlen]
    by_contra hge
    rw [List.getElem?_eq_none (by omega)] at hc
    cases hc
  · refine ⟨?_, ?_⟩
    · rw [hr]
      intro c hc
      simp only [List.mem_append, List.mem_singleton] at hc
      rcases hc with hc | rfl
      · exact hall c hc
      · exact MegaBufferChunk.construct_valid fresh
    · rw [hr]
      simp [hlen]

theorem MegaBufferAllocator.allocatorPush_valid {a : MegaBufferAllocator} {fresh : Buffer}
    {poll : Nat → FenceCycle → Bool → Bool} {cycle : Option FenceCycle} {data : List u8}
    {pageAlign : Bool} {r : AllocatorPushResult} (hv : a.Valid)
    (h : a.Push fresh poll cycle data pageAlign = some r) : r.allocator.Valid := by
  obtain ⟨c, r1, hc, hr1, hcase⟩ := MegaBufferAllocator.allocatorPush_cases h
  have hcv : c.Valid := hv.2 c (List.getElem?_mem hc)
  have h1 : ∀ c ∈ a.chunks.set a.activeChunk r1.chunk, c.Valid :=
    forall_mem_set hv.2 _ (MegaBufferChunk.Push_valid hcv hr1)
  rcases hcase with ⟨_, _, hal, _⟩ | ⟨_, c2, r2, hc2, hr2, _, hal, _⟩
  · rw [hal]
    exact ⟨by simpa using hv.1, h1⟩
  · obtain ⟨hall, hlt⟩ := reclaimOrGrow_valid fresh poll h1
    have hc2v : c2.Valid := hall c2 (List.getElem?_mem hc2)
    rw [hal]
    exact ⟨by simpa using hlt, forall_mem_set hall _ (MegaBufferChunk.Push_valid hc2v hr2)⟩

/-- Every reachable allocator state satisfies the data-model invariant. -/
theorem MegaBufferAllocator.Reachable.allocatorValid {a : MegaBufferAllocator} (h : a.Reachable) :
    a.Valid := by
  induction h with
  | construct backing =>
    refine ⟨by simp [MegaBufferAllocator.construct], ?_⟩
    intro c hc
    simp only [MegaBufferAllocator.construct, List.mem_singleton] at hc
    rw [hc]
    exact MegaBufferChunk.construct_valid backing
  | push fresh poll cycle data pageAlign _ hp ih => exact MegaBufferAllocator.allocatorPush_valid ih hp

/-- A call of `Push` with a null token that gets past the size check returns only on a chunk
whose cycle is null. -/
theorem MegaBufferChunk.Push_null_token {c : MegaBufferChunk} {data : List u8}
    {pageAlign : Bool} {r : PushResult} (h : c.Push none data pageAlign = some r)
    (hfit : data.length ≤ (c.alignFree pageAlign).freeRegion.size) : c.cycle = none := by
  unfold MegaBufferChunk.Push at h
  simp only [MegaBufferChunk.alignFree_cycle] at h
  split_ifs at h with h1 h2
  · omega
  · simpa using h2

/-- A call of `Push` on a chunk with a recorded cycle leaves a cycle recorded, does not move
the cursor backwards and writes no byte below the cursor. -/
theorem MegaBufferChunk.Push_keeps {c : MegaBufferChunk} {t : FenceCycle}
    (hcy : c.cycle = some t) {newCycle : Option FenceCycle} {data : List u8}
    {pageAlign : Bool} {r : PushResult} (h : c.Push newCycle data pageAlign = some r) :
    r.chunk.cycle ≠ none ∧ c.freeRegion.offset ≤ r.chunk.freeRegion.offset ∧
    ∀ j, j < c.freeRegion.offset → r.chunk.backing.bytes j = c.backing.bytes j := by
  refine ⟨?_, MegaBufferChunk.Push_offset_le h, ?_⟩
  · rcases MegaBufferChunk.Push_cases h with ⟨_, _, hc, _⟩ | ⟨hle, _, _, _, hcy2, _⟩
    · rw [hc, MegaBufferChunk.alignFree_cycle, hcy]
      exact Option.some_ne_none t
    · rw [hcy2]
      intro hnone
      subst hnone
      rw [MegaBufferChunk.Push_null_token h hle] at hcy
      cases hcy
  · intro j hj
    have ha := c.alignFree_offset_le pageAlign
    rcases MegaBufferChunk.Push_cases h with ⟨_, _, hc, _⟩ | ⟨_, _, hb, _, _, _⟩
    · rw [hc, MegaBufferChunk.alignFree_backing]
    · rw [hb]
      simp only [Buffer.copy_from]
      rw [if_neg (by omega)]

/-- A chunk with a recorded cycle whose completion query answers false is passed over by
lines 68 to 70: it does not become active and stays as it is. -/
theorem reclaimOrGrow_keep (fresh : Buffer) (poll : Nat → FenceCycle → Bool → Bool)
    (cs : List MegaBufferChunk) (i : Nat) (c : MegaBufferChunk) (t : FenceCycle)
    (hi : cs[i]? = some c) (hcy : c.cycle = some t) (hp : poll i t true = false) :
    (reclaimOrGrow fresh poll cs).1 ≠ i ∧ (reclaimOrGrow fresh poll cs).2[i]? = some c := by
  have hfalse : (c.TryReset (poll i)).1 = false := by
    simp [MegaBufferChunk.TryReset, hcy, hp]
  have hlen := findTryReset_length poll cs
  have hilt : i < cs.length := by
    by_contra hge
    rw [List.getElem?_eq_none (by omega)] at hi
    cases hi
  have hne : (findTryReset poll cs).1 ≠ i := by
    intro heq
    have hat := (findTryReset_at poll cs c (by rw [heq]; exact hi)).1
    rw [heq, hfalse] at hat
    cases hat
  have hget : (findTryReset poll cs).2[i]? = some c := by
    rcases Nat.lt_or_gt_of_ne hne with hlt | hgt
    · rw [findTryReset_after poll cs i hlt]
      exact hi
    · exact (findTryReset_before poll cs i c hi hgt).2
  rcases reclaimOrGrow_active fresh poll cs with ⟨_, _, _, hr, _⟩ | ⟨_, hr, _⟩
  · rw [hr]
    exact ⟨hne, hget⟩
  · rw [hr]
    refine ⟨by simp only []; omega, ?_⟩
    simp only []
    rw [List.getElem?_append_left (by omega)]
    exact hget

/-- The state a chunk whose free region is the backing minus its first page is left in by a
request of at most `C - P` bytes. -/
theorem MegaBufferChunk.Push_pristine_state {c : MegaBufferChunk}
    (hf : c.freeRegion = c.backing.subspan PAGE_SIZE) {newCycle : Option FenceCycle}
    {data : List u8} {pageAlign : Bool} {r : PushResult}
    (hn : data.length ≤ MegaBufferChunkSize - PAGE_SIZE)
    (h : c.Push newCycle data pageAlign = some r) :
    r.offset = 4096 ∧ r.chunk.freeRegion = ⟨4096 + data.length, 26210304 - data.length⟩ ∧
    r.chunk.cycle = newCycle := by
  have ha := MegaBufferChunk.alignFree_pristine hf pageAlign
  rw [Buffer.subspan_page] at hf
  simp only [PAGE_SIZE, chunkSize_eq] at hn
  rcases MegaBufferChunk.Push_cases h with ⟨hgt, _, _, _⟩ | ⟨_, ho, _, hfr, hcy, _⟩
  · rw [ha, hf] at hgt
    simp only [] at hgt
    omega
  · rw [ha, hf] at ho hfr
    exact ⟨ho, hfr, hcy⟩

/-- One byte pushed on a fresh chunk lands at 4096 and leaves the cursor at 4097. -/
theorem MegaBufferChunk.construct_push_one {backing : Buffer} {newCycle : Option FenceCycle}
    {b : u8} {r : PushResult}
    (h : (MegaBufferChunk.construct backing).Push newCycle [b] false = some r) :
    r.offset = 4096 ∧ r.chunk.freeRegion = ⟨4097, 26210303⟩ ∧ r.chunk.cycle = newCycle := by
  obtain ⟨ho, hfr, hcy⟩ := MegaBufferChunk.Push_pristine_state
    (c := MegaBufferChunk.construct backing) rfl
    (by simp only [List.length, PAGE_SIZE, chunkSize_eq]; omega) h
  refine ⟨ho, ?_, hcy⟩
  rw [hfr]
  simp only [List.length, span.mk.injEq]

/-- In a chunk that satisfies the data-model invariant the offset 0 is returned only by the
early return of line 34, which leaves the chunk as the alignment of lines 27 to 31 left it. -/
theorem MegaBufferChunk.Push_zero {c : MegaBufferChunk} (hv : c.Valid)
    {newCycle : Option FenceCycle} {data : List u8} {pageAlign : Bool} {r : PushResult}
    (h : c.Push newCycle data pageAlign = some r) (h0 : r.offset = 0) :
    data.length > (c.alignFree pageAlign).freeRegion.size ∧
    r.chunk = c.alignFree pageAlign ∧ r.chained = [] := by
  obtain ⟨hP, _⟩ := MegaBufferChunk.alignFree_valid pageAlign hv
  simp only [PAGE_SIZE] at hP
  rcases MegaBufferChunk.Push_cases h with ⟨hgt, _, hc, hch⟩ | ⟨_, ho, _, _, _, _⟩
  · exact ⟨hgt, hc, hch⟩
  · omega

/-! ## Which chunk the scan picks and what the allocator's `Push` leaves behind -/

/-- The scan reaches the end exactly when `TryReset` returns false for every chunk. -/
theorem findTryReset_end_iff (poll : Nat → FenceCycle → Bool → Bool)
    (cs : List MegaBufferChunk) :
    (findTryReset poll cs).1 = cs.length ↔
      ∀ (j : Nat) (cj : MegaBufferChunk), cs[j]? = some cj →
        (cj.TryReset (poll j)).1 = false := by
  constructor
  · intro hend j cj hj
    have hlt : j < cs.length := by
      by_contra hge
      rw [List.getElem?_eq_none (by omega)] at hj
      cases hj
    exact (findTryReset_before poll cs j cj hj (by omega)).1
  · intro hall
    have hle := findTryReset_le poll cs
    by_contra hne
    have hlt : (findTryReset poll cs).1 < cs.length := by omega
    have hget : cs[(findTryReset poll cs).1]? = some (cs.get ⟨_, hlt⟩) :=
      List.getElem?_eq_getElem hlt
    have htrue := (findTryReset_at poll cs _ hget).1
    rw [hall _ _ hget] at htrue
    cases htrue

/-- The scan depends on the answers of the completion queries only up to the position it
stops at: the chunks behind that position are not queried. -/
theorem findTryReset_congr (poll poll2 : Nat → FenceCycle → Bool → Bool)
    (cs : List MegaBufferChunk)
    (hagree : ∀ j, j ≤ (findTryReset poll cs).1 → poll2 j = poll j) :
    findTryReset poll2 cs = findTryReset poll cs := by
  induction cs generalizing poll poll2 with
  | nil => rfl
  | cons c0 cs ih =>
    have h0 : poll2 0 = poll 0 := hagree 0 (Nat.zero_le _)
    unfold findTryReset at hagree ⊢
    rw [h0]
    split_ifs at hagree ⊢ with hres
    · rfl
    · have hrec := ih (fun i => poll (i + 1)) (fun i => poll2 (i + 1))
        (fun j hj => hagree (j + 1) (by simpa using hj))
      rw [hrec]

/-- A projection of chunks that `TryReset` leaves alone is the same before and after the
scan. -/
theorem findTryReset_map {β : Type} (g : MegaBufferChunk → β)
    (hg : ∀ (c : MegaBufferChunk) (q : FenceCycle → Bool → Bool), g (c.TryReset q).2 = g c)
    (poll : Nat → FenceCycle → Bool → Bool) (cs : List MegaBufferChunk) :
    (findTryReset poll cs).2.map g = cs.map g := by
  induction cs generalizing poll with
  | nil => rfl
  | cons c0 cs ih =>
    unfold findTryReset
    split_ifs
    · simp only [List.map_cons, hg]
    · simp only [List.map_cons, hg, ih]

/-- The first attempt decides the call when it returns a non-zero offset. -/
theorem MegaBufferAllocator.allocatorPush_first {a : MegaBufferAllocator} (fresh : Buffer)
    (poll : Nat → FenceCycle → Bool → Bool) {cycle : Option FenceCycle} {data : List u8}
    {pageAlign : Bool} {c : MegaBufferChunk} {r1 : PushResult}
    (hc : a.chunks[a.activeChunk]? = some c) (hr1 : c.Push cycle data pageAlign = some r1)
    (ho : r1.offset ≠ 0) :
    a.Push fresh poll cycle data pageAlign =
      some { outcome := .returned ⟨r1.chunk.GetBacking, r1.offset⟩,
             allocator := ⟨a.chunks.set a.activeChunk r1.chunk, a.activeChunk⟩,
             chained := r1.chained } := by
  unfold MegaBufferAllocator.Push
  simp only [hc, hr1]
  rw [if_pos ho]

/-- The second attempt decides the call when the first returns 0. -/
theorem MegaBufferAllocator.allocatorPush_retry {a : MegaBufferAllocator} (fresh : Buffer)
    (poll : Nat → FenceCycle → Bool → Bool) {cycle : Option FenceCycle} {data : List u8}
    {pageAlign : Bool} {c c2 : MegaBufferChunk} {r1 r2 : PushResult}
    (hc : a.chunks[a.activeChunk]? = some c) (hr1 : c.Push cycle data pageAlign = some r1)
    (ho : r1.offset = 0)
    (hc2 : (reclaimOrGrow fresh poll (a.chunks.set a.activeChunk r1.chunk)).2[
      (reclaimOrGrow fresh poll (a.chunks.set a.activeChunk r1.chunk)).1]? = some c2)
    (hr2 : c2.Push cycle data pageAlign = some r2) :
    a.Push fresh poll cycle data pageAlign =
      some { outcome :=
               if r2.offset ≠ 0 then .returned ⟨r2.chunk.GetBacking, r2.offset⟩
               else .thrown data.length,
             allocator :=
               ⟨(reclaimOrGrow fresh poll (a.chunks.set a.activeChunk r1.chunk)).2.set
                  (reclaimOrGrow fresh poll (a.chunks.set a.activeChunk r1.chunk)).1 r2.chunk,
                (reclaimOrGrow fresh poll (a.chunks.set a.activeChunk r1.chunk)).1⟩,
             chained := r1.chained ++ r2.chained } := by
  unfold MegaBufferAllocator.Push
  simp only [hc, hr1]
  rw [if_neg (by simpa using ho)]
  simp only [hc2, hr2]

/-- The number of chunks after lines 68 to 70. -/
theorem reclaimOrGrow_length (fresh : Buffer) (poll : Nat → FenceCycle → Bool → Bool)
    (cs : List MegaBufferChunk) :
    (reclaimOrGrow fresh poll cs).2.length =
      if (findTryReset poll cs).1 = cs.length then cs.length + 1 else cs.length := by
  have hlen := findTryReset_length poll cs
  rcases reclaimOrGrow_active fresh poll cs with ⟨c, hc, _, hr, _⟩ | ⟨hend, hr, _⟩
  · have hlt : (findTryReset poll cs).1 < cs.length := by
      by_contra hge
      rw [List.getElem?_eq_none (by omega)] at hc
      cases hc
    rw [hr, hlen, if_neg (by omega)]
  · rw [hr, if_pos hend]
    simp [hlen]

/-- Lines 68 to 70 depend on the answers of the completion queries only up to the position
the scan stops at. -/
theorem reclaimOrGrow_congr (fresh : Buffer) (poll poll2 : Nat → FenceCycle → Bool → Bool)
    (cs : List MegaBufferChunk)
    (hagree : ∀ j, j ≤ (findTryReset poll cs).1 → poll2 j = poll j) :
    reclaimOrGrow fresh poll2 cs = reclaimOrGrow fresh poll cs := by
  unfold reclaimOrGrow
  rw [findTryReset_congr poll poll2 cs hagree]

/-- The bytes that `copy_from` writes. -/
theorem Buffer.copy_from_inside (b : Buffer) (offset : Nat) (data : List u8) (i : Nat)
    (hi : i < data.length) :
    data[i]? = some ((b.copy_from ⟨offset, data.length⟩ data).bytes (offset + i)) := by
  simp only [Buffer.copy_from]
  rw [if_pos ⟨by omega, by omega⟩, Nat.add_sub_cancel_left, List.getD_eq_getElem?_getD,
    List.getElem?_eq_getElem hi]
  rfl

/-- The bytes that `copy_from` leaves alone. -/
theorem Buffer.copy_from_outside (b : Buffer) (offset : Nat) (data : List u8) (i : Nat)
    (hi : ¬ (offset ≤ i ∧ i < offset + data.length)) :
    (b.copy_from ⟨offset, data.length⟩ data).bytes i = b.bytes i := by
  simp only [Buffer.copy_from]
  rw [if_neg hi]

theorem Buffer.copy_from_vkBuffer (b : Buffer) (dst : span) (data : List u8) :
    (b.copy_from dst data).vkBuffer = b.vkBuffer := rfl

theorem MegaBufferChunk.TryReset_backing (c : MegaBufferChunk)
    (poll : FenceCycle → Bool → Bool) : (c.TryReset poll).2.backing = c.backing := by
  unfold MegaBufferChunk.TryReset
  split
  · split_ifs <;> rfl
  · rfl

/-- Lines 68 to 70 write no byte: every chunk afterwards has the backing it had before, and an
appended chunk has the buffer it was constructed on. -/
theorem reclaimOrGrow_backing (fresh : Buffer) (poll : Nat → FenceCycle → Bool → Bool)
    (cs : List MegaBufferChunk) (j : Nat) (cj : MegaBufferChunk)
    (hj : (reclaimOrGrow fresh poll cs).2[j]? = some cj) :
    cj.backing = (MegaBufferAllocator.mk cs 0).backingBefore fresh j := by
  have hmap := findTryReset_map (fun c => c.backing) MegaBufferChunk.TryReset_backing poll cs
  have hlen := findTryReset_length poll cs
  have hold : ∀ cf, (findTryReset poll cs).2[j]? = some cf →
      cf.backing = (MegaBufferAllocator.mk cs 0).backingBefore fresh j := by
    intro cf hcf
    have h1 : ((findTryReset poll cs).2.map (fun c => c.backing))[j]? = some cf.backing := by
      rw [List.getElem?_map, hcf]
      rfl
    rw [hmap, List.getElem?_map] at h1
    simp only [MegaBufferAllocator.backingBefore]
    cases hcs : cs[j]? with
    | none => rw [hcs] at h1; cases h1
    | some c0 =>
      rw [hcs] at h1
      simp only [Option.map_some', Option.some.injEq] at h1
      exact h1.symm
  rcases reclaimOrGrow_active fresh poll cs with ⟨_, _, _, hr, _⟩ | ⟨_, hr, _⟩
  · rw [hr] at hj
    exact hold cj hj
  · rw [hr] at hj
    simp only [] at hj
    by_cases hlt : j < cs.length
    · rw [List.getElem?_append_left (by omega)] at hj
      exact hold cj hj
    · rw [List.getElem?_append_right (by omega)] at hj
      have hnone : cs[j]? = none := List.getElem?_eq_none (by omega)
      simp only [MegaBufferAllocator.backingBefore, hnone]
      cases hidx : j - (findTryReset poll cs).2.length with
      | zero =>
        rw [hidx] at hj
        simp only [List.getElem?_cons_zero, Option.some.injEq] at hj
        rw [← hj]
        rfl
      | succ n =>
        rw [hidx] at hj
        simp at hj

/-! ## Requests that do not fit and chunks that are all busy -/

/-- A request larger than the free region left after alignment takes the early return of
line 34, whatever the token. -/
theorem MegaBufferChunk.Push_too_big (c : MegaBufferChunk) (newCycle : Option FenceCycle)
    {data : List u8} (pageAlign : Bool)
    (h : data.length > (c.alignFree pageAlign).freeRegion.size) :
    c.Push newCycle data pageAlign =
      some { offset := 0, chunk := c.alignFree pageAlign, chained := [] } := by
  unfold MegaBufferChunk.Push
  simp only []
  rw [if_pos h]

/-- In a chunk that satisfies the data-model invariant at most `C - P` bytes are free. -/
theorem MegaBufferChunk.free_le {c : MegaBufferChunk} (hv : c.Valid) (pageAlign : Bool) :
    (c.alignFree pageAlign).freeRegion.size ≤ MegaBufferChunkSize - PAGE_SIZE := by
  obtain ⟨hP, hS⟩ := MegaBufferChunk.alignFree_valid pageAlign hv
  omega

theorem MegaBufferChunk.alignFree_validNonNull {c : MegaBufferChunk} (pageAlign : Bool)
    (hv : c.ValidNonNull) : (c.alignFree pageAlign).ValidNonNull := by
  refine ⟨MegaBufferChunk.alignFree_valid pageAlign hv.1, ?_⟩
  intro hnone
  rw [MegaBufferChunk.alignFree_cycle] at hnone
  rw [MegaBufferChunk.alignFree_pristine (hv.2 hnone)]
  exact hv.2 hnone

/-- When `TryReset` returns false for every chunk the scan reaches the end and changes
nothing. -/
theorem findTryReset_all_false (poll : Nat → FenceCycle → Bool → Bool)
    (cs : List MegaBufferChunk)
    (hall : ∀ (j : Nat) (cj : MegaBufferChunk), cs[j]? = some cj →
      (cj.TryReset (poll j)).1 = false) :
    findTryReset poll cs = (cs.length, cs) := by
  induction cs generalizing poll with
  | nil => rfl
  | cons c0 cs ih =>
    have h0 : (c0.TryReset (poll 0)).1 = false := hall 0 c0 (by simp)
    have hrec := ih (fun i => poll (i + 1)) (fun j cj hj => hall (j + 1) cj (by simpa using hj))
    unfold findTryReset
    rw [if_neg (by rw [h0]; exact Bool.false_ne_true), hrec,
      MegaBufferChunk.TryReset_false_snd h0]
    rfl

/-- A chunk with a recorded cycle whose completion query answers false is not reclaimed. -/
theorem MegaBufferChunk.TryReset_busy {c : MegaBufferChunk} {poll : FenceCycle → Bool → Bool}
    {t : FenceCycle} (hcy : c.cycle = some t) (hp : poll t true = false) :
    (c.TryReset poll).1 = false := by
  simp [MegaBufferChunk.TryReset, hcy, hp]

/-- The allocator's `Push` when the request does not fit the active chunk and every chunk has
a recorded cycle that is not complete: a chunk constructed on `fresh` is appended, becomes
active and takes the second attempt. -/
theorem MegaBufferAllocator.allocatorPush_all_busy {a : MegaBufferAllocator} (fresh : Buffer)
    (poll : Nat → FenceCycle → Bool → Bool) (cycle : Option FenceCycle) {data : List u8}
    (pageAlign : Bool) {c : MegaBufferChunk} {r2 : PushResult}
    (hc : a.chunks[a.activeChunk]? = some c)
    (hfail : data.length > (c.alignFree pageAlign).freeRegion.size)
    (hbusy : ∀ (j : Nat) (cj : MegaBufferChunk), a.chunks[j]? = some cj →
      ∃ t, cj.cycle = some t ∧ poll j t true = false)
    (hr2 : (MegaBufferChunk.construct fresh).Push cycle data pageAlign = some r2) :
    a.Push fresh poll cycle data pageAlign =
      some { outcome :=
               if r2.offset ≠ 0 then .returned ⟨r2.chunk.GetBacking, r2.offset⟩
               else .thrown data.length,
             allocator :=
               ⟨a.chunks.set a.activeChunk (c.alignFree pageAlign) ++ [r2.chunk],
                a.chunks.length⟩,
             chained := r2.chained } := by
  have hr1 := c.Push_too_big cycle pageAlign hfail
  have hact : a.activeChunk < a.chunks.length := by
    by_contra hge
    rw [List.getElem?_eq_none (by omega)] at hc
    cases hc
  have hall : ∀ (j : Nat) (cj : MegaBufferChunk),
      (a.chunks.set a.activeChunk (c.alignFree pageAlign))[j]? = some cj →
      (cj.TryReset (poll j)).1 = false := by
    intro j cj hj
    rw [List.getElem?_set] at hj
    by_cases hja : a.activeChunk = j
    · rw [if_pos hja, if_pos hact] at hj
      cases hj
      obtain ⟨t, hcy, hp⟩ := hbusy a.activeChunk c hc
      rw [← hja]
      exact MegaBufferChunk.TryReset_busy (by rw [MegaBufferChunk.alignFree_cycle]; exact hcy) hp
    · rw [if_neg hja] at hj
      obtain ⟨t, hcy, hp⟩ := hbusy j cj hj
      exact MegaBufferChunk.TryReset_busy hcy hp
  have hgrow : reclaimOrGrow fresh poll (a.chunks.set a.activeChunk (c.alignFree pageAlign)) =
      (a.chunks.length,
        a.chunks.set a.activeChunk (c.alignFree pageAlign) ++ [MegaBufferChunk.construct fresh])
      := by
    unfold reclaimOrGrow
    rw [findTryReset_all_false poll _ hall]
    simp
  have hc2 : (reclaimOrGrow fresh poll (a.chunks.set a.activeChunk (c.alignFree pageAlign))).2[
      (reclaimOrGrow fresh poll (a.chunks.set a.activeChunk (c.alignFree pageAlign))).1]? =
      some (MegaBufferChunk.construct fresh) := by
    rw [hgrow]
    simp only []
    rw [List.getElem?_append_right (by simp)]
    simp
  rw [MegaBufferAllocator.allocatorPush_retry fresh poll hc hr1 rfl hc2 hr2, hgrow]
  simp only [List.nil_append, Option.some.injEq, AllocatorPushResult.mk.injEq,
    MegaBufferAllocator.mk.injEq, and_true, true_and]
  rw [List.set_append_right _ _ (by simp)]
  simp

/-! ## The example scenario of the spec -/

/-- An allocator with a single chunk into which the request fits: the first attempt allocates
behind the (aligned) cursor. -/
theorem MegaBufferAllocator.allocatorPush_single (c : MegaBufferChunk) (fresh : Buffer)
    (poll : Nat → FenceCycle → Bool → Bool) (t : FenceCycle) (data : List u8)
    (pageAlign : Bool) (f sz : Nat) (hal : (c.alignFree pageAlign).freeRegion = ⟨f, sz⟩)
    (hfit : data.length ≤ sz) (hpos : f ≠ 0) :
    ∃ r c2, (MegaBufferAllocator.mk [c] 0).Push fresh poll (some t) data pageAlign = some r ∧
      r.outcome = .returned ⟨c.backing.vkBuffer, f⟩ ∧ r.allocator = ⟨[c2], 0⟩ ∧
      c2.freeRegion = ⟨f + data.length, sz - data.length⟩ ∧ c2.cycle = some t ∧
      c2.backing.vkBuffer = c.backing.vkBuffer := by
  obtain ⟨r1, hr1⟩ := c.Push_some_isSome t data pageAlign
  rcases MegaBufferChunk.Push_cases hr1 with ⟨hgt, _, _, _⟩ | ⟨_, ho, hb, hfr, hcy, _⟩
  · rw [hal] at hgt
    simp only [] at hgt
    omega
  · rw [hal] at ho hfr
    simp only [] at ho hfr
    have hpush := MegaBufferAllocator.allocatorPush_first (a := MegaBufferAllocator.mk [c] 0)
      fresh poll (by simp) hr1 (by rw [ho]; exact hpos)
    refine ⟨_, r1.chunk, hpush, ?_, ?_, hfr, hcy, ?_⟩
    · simp only [MegaBufferChunk.GetBacking, hb, ho, Buffer.copy_from_vkBuffer]
    · simp
    · rw [hb, Buffer.copy_from_vkBuffer]

/-- The example scenario: on a fresh allocator 100 bytes and 200 bytes are pushed with token A
and 50 page-aligned bytes with token B, which land at 4096, 4196 and 8192 of the first chunk.
While token B is not complete, a request of the full chunk size `C` then makes the allocator
append a second chunk and throw, and a request of `C - P` bytes instead lands at 4096 of the
second chunk. -/
theorem example_scenario (backing fresh : Buffer) (poll : Nat → FenceCycle → Bool → Bool)
    (tokenA tokenB : FenceCycle) (d1 d2 d3 d4 d5 : List u8) (pageAlign : Bool)
    (h1 : d1.length = 100) (h2 : d2.length = 200) (h3 : d3.length = 50)
    (h4 : d4.length = MegaBufferChunkSize)
    (h5 : d5.length = MegaBufferChunkSize - PAGE_SIZE)
    (hbusy : poll 0 tokenB true = false) :
    ∃ r1 r2 r3 r4 r5,
      (MegaBufferAllocator.construct backing).Push fresh poll (some tokenA) d1 false = some r1 ∧
      r1.outcome = .returned ⟨backing.vkBuffer, 4096⟩ ∧
      r1.allocator.Push fresh poll (some tokenA) d2 false = some r2 ∧
      r2.outcome = .returned ⟨backing.vkBuffer, 4196⟩ ∧
      r2.allocator.Push fresh poll (some tokenB) d3 true = some r3 ∧
      r3.outcome = .returned ⟨backing.vkBuffer, 8192⟩ ∧
      r3.allocator.Push fresh poll (some tokenB) d4 pageAlign = some r4 ∧
      r4.outcome = .thrown MegaBufferChunkSize ∧
      r4.allocator.chunks.length = 2 ∧ r4.allocator.activeChunk = 1 ∧
      r3.allocator.Push fresh poll (some tokenB) d5 pageAlign = some r5 ∧
      r5.outcome = .returned ⟨fresh.vkBuffer, 4096⟩ ∧
      r5.allocator.chunks.length = 2 ∧ r5.allocator.activeChunk = 1 := by
  -- the three pushes into the first chunk
  obtain ⟨r1, c1, hp1, ho1, ha1, hf1, _, hb1⟩ := MegaBufferAllocator.allocatorPush_single
    (MegaBufferChunk.construct backing) fresh poll tokenA d1 false 4096 26210304
    (by rw [MegaBufferChunk.alignFree_false]; exact Buffer.subspan_page backing)
    (by omega) (by omega)
  rw [h1] at hf1
  simp only [Nat.reduceAdd, Nat.reduceSub] at hf1
  obtain ⟨r2, c2, hp2, ho2, ha2, hf2, _, hb2⟩ := MegaBufferAllocator.allocatorPush_single
    c1 fresh poll tokenA d2 false 4196 26210204
    (by rw [MegaBufferChunk.alignFree_false, hf1]) (by omega) (by omega)
  rw [h2] at hf2
  simp only [Nat.reduceAdd, Nat.reduceSub] at hf2
  have hal3 : (c2.alignFree true).freeRegion = ⟨8192, 26206208⟩ := by
    rw [MegaBufferChunk.alignFree_true, hf2]
    simp only [span.mk.injEq]
  obtain ⟨r3, c3, hp3, ho3, ha3, hf3, hcy3, hb3⟩ := MegaBufferAllocator.allocatorPush_single
    c2 fresh poll tokenB d3 true 8192 26206208 hal3 (by omega) (by omega)
  rw [h3] at hf3
  simp only [Nat.reduceAdd, Nat.reduceSub] at hf3
  rw [← ha1] at hp2
  rw [← ha2] at hp3
  have hvk1 : c1.backing.vkBuffer = backing.vkBuffer := hb1
  have hvk2 : c2.backing.vkBuffer = backing.vkBuffer := by rw [hb2, hvk1]
  rw [hvk1] at ho2
  rw [hvk2] at ho3
  -- the first chunk afterwards
  have hv3 : c3.Valid := by
    refine ⟨?_, ?_⟩
    · rw [hf3]
      simp only [PAGE_SIZE]
      omega
    · rw [hf3]
      simp only [chunkSize_eq]
  have hc3 : r3.allocator.chunks[r3.allocator.activeChunk]? = some c3 := by
    rw [ha3]
    simp
  have hlen3 : r3.allocator.chunks.length = 1 := by
    rw [ha3]
    simp
  have hsize3 : (c3.alignFree pageAlign).freeRegion.size ≤ 26206158 := by
    have hle := c3.alignFree_offset_le pageAlign
    have hsum := (MegaBufferChunk.alignFree_valid pageAlign hv3).2
    rw [hf3] at hle
    simp only [chunkSize_eq] at hsum hle
    omega
  have hbusy3 : ∀ (j : Nat) (cj : MegaBufferChunk), r3.allocator.chunks[j]? = some cj →
      ∃ t, cj.cycle = some t ∧ poll j t true = false := by
    intro j cj hj
    rw [ha3] at hj
    cases j with
    | zero =>
      simp only [List.getElem?_cons_zero, Option.some.injEq] at hj
      rw [← hj]
      exact ⟨tokenB, hcy3, hbusy⟩
    | succ j => simp at hj
  simp only [PAGE_SIZE, chunkSize_eq] at h4 h5 ⊢
  -- the request of the full chunk size
  obtain ⟨q4, hq4⟩ := (MegaBufferChunk.construct fresh).Push_some_isSome tokenB d4 pageAlign
  have hz4 : ¬ q4.offset ≠ 0 := by
    intro hne
    have hle := (MegaBufferChunk.Push_pristine_iff rfl hq4).1 hne
    simp only [PAGE_SIZE, chunkSize_eq] at hle
    omega
  have hp4 := MegaBufferAllocator.allocatorPush_all_busy fresh poll (some tokenB) pageAlign
    hc3 (by omega) hbusy3 hq4
  rw [if_neg hz4] at hp4
  -- the request of the chunk size minus one page
  obtain ⟨q5, hq5⟩ := (MegaBufferChunk.construct fresh).Push_some_isSome tokenB d5 pageAlign
  have ho5 : q5.offset = 4096 :=
    MegaBufferChunk.Push_pristine rfl (by simp only [PAGE_SIZE, chunkSize_eq]; omega) hq5
  have hb5 : q5.chunk.GetBacking = fresh.vkBuffer := by
    rcases MegaBufferChunk.Push_cases hq5 with ⟨_, hz, _, _⟩ | ⟨_, _, hb, _, _, _⟩
    · omega
    · simp only [MegaBufferChunk.GetBacking, hb, Buffer.copy_from_vkBuffer]
      rfl
  have hp5 := MegaBufferAllocator.allocatorPush_all_busy fresh poll (some tokenB) pageAlign
    hc3 (by omega) hbusy3 hq5
  rw [if_pos (by omega), hb5, ho5] at hp5
  refine ⟨r1, r2, r3, _, _, hp1, ho1, hp2, ho2, hp3, ho3, hp4, ?_, ?_, ?_, hp5, rfl, ?_, ?_⟩
  · simp only [h4]
  · simp [hlen3]
  · exact hlen3
  · simp [hlen3]
  · exact hlen3

/-! ## The claims -/

/-- C3: in every chunk state reachable from construction through `Push` and `TryReset`, a
non-zero offset returned by `Push` for data of size `n` satisfies `P ≤ offset` and
`offset + n ≤ C`; the offset is 0 exactly when the size check of line 33 fails, so a push that
allocates never returns 0. -/
theorem C3_offset_bounds (c : MegaBufferChunk) (hc : c.Reachable)
    (newCycle : Option FenceCycle) (data : List u8) (pageAlign : Bool) (r : PushResult)
    (h : c.Push newCycle data pageAlign = some r) :
    (r.offset ≠ 0 →
      PAGE_SIZE ≤ r.offset ∧ r.offset + data.length ≤ MegaBufferChunkSize) ∧
    (r.offset = 0 ↔ data.length > (c.alignFree pageAlign).freeRegion.size) := by
  obtain ⟨hP, hS⟩ := MegaBufferChunk.alignFree_valid pageAlign hc.chunkValid
  simp only [PAGE_SIZE] at hP ⊢
  rcases MegaBufferChunk.Push_cases h with ⟨hgt, ho, _, _⟩ | ⟨hle, ho, _, _, _, _⟩
  · exact ⟨fun hne => absurd ho hne, fun _ => hgt, fun _ => ho⟩
  · refine ⟨fun _ => ⟨by omega, by omega⟩, fun h0 => by omega, fun hgt => by omega⟩

/-- Witness for C3: three bytes pushed on a fresh chunk. -/
theorem C3_offset_bounds_witness :
    (MegaBufferChunk.construct ⟨7, fun _ => 0⟩).Reachable ∧
    ∃ r, (MegaBufferChunk.construct ⟨7, fun _ => 0⟩).Push (some 1) [1, 2, 3] false = some r ∧
      (r.offset ≠ 0 →
        PAGE_SIZE ≤ r.offset ∧ r.offset + [(1 : u8), 2, 3].length ≤ MegaBufferChunkSize) ∧
      (r.offset = 0 ↔ [(1 : u8), 2, 3].length >
        ((MegaBufferChunk.construct ⟨7, fun _ => 0⟩).alignFree false).freeRegion.size) :=
  ⟨.construct _, by
    obtain ⟨r, hr⟩ := (MegaBufferChunk.construct ⟨7, fun _ => 0⟩).Push_some_isSome 1 [1, 2, 3] false
    exact ⟨r, hr, C3_offset_bounds _ (.construct _) (some 1) [1, 2, 3] false r hr⟩⟩

/-- C4: when two calls of `Push` on the same chunk both return a non-zero offset, `o1` for
`n1` bytes and later `o2` for `n2` bytes, and the chunk is not reset in between, then
`o1 + n1 ≤ o2`, so no byte index lies in both `[o1, o1 + n1)` and `[o2, o2 + n2)`. -/
theorem C4_allocations_disjoint (c c2 : MegaBufferChunk) (token1 token2 : Option FenceCycle)
    (d1 d2 : List u8) (align1 align2 : Bool) (r1 r2 : PushResult)
    (h1 : c.Push token1 d1 align1 = some r1) (ho1 : r1.offset ≠ 0)
    (hsteps : MegaBufferChunk.NoResetSteps r1.chunk c2)
    (h2 : c2.Push token2 d2 align2 = some r2) (ho2 : r2.offset ≠ 0) :
    r1.offset + d1.length ≤ r2.offset ∧
    ∀ i, ¬ ((r1.offset ≤ i ∧ i < r1.offset + d1.length) ∧
            (r2.offset ≤ i ∧ i < r2.offset + d2.length)) := by
  have hkey : r1.offset + d1.length ≤ r2.offset := by
    have hmid := hsteps.offset_le
    have ha2 := c2.alignFree_offset_le align2
    rcases MegaBufferChunk.Push_cases h1 with ⟨_, ho, _, _⟩ | ⟨_, ho, _, hf, _, _⟩
    · exact absurd ho ho1
    · rcases MegaBufferChunk.Push_cases h2 with ⟨_, ho', _, _⟩ | ⟨_, ho', _, _, _, _⟩
      · exact absurd ho' ho2
      · rw [hf] at hmid
        simp only [] at hmid
        omega
  refine ⟨hkey, ?_⟩
  intro i hi
  omega

/-- Witness for C4: 100 bytes, then 200 more bytes and a reset attempt that finds the cycle
incomplete, then 50 page-aligned bytes. -/
theorem C4_allocations_disjoint_witness :
    ∃ r1 r2 rmid,
      (MegaBufferChunk.construct ⟨7, fun _ => 0⟩).Push (some 1) (List.replicate 100 0) false
        = some r1 ∧ r1.offset ≠ 0 ∧
      r1.chunk.Push (some 1) (List.replicate 200 0) false = some rmid ∧
      (rmid.chunk.TryReset (fun _ _ => false)).2.Push (some 2) (List.replicate 50 0) true
        = some r2 ∧ r2.offset ≠ 0 ∧
      r1.offset + (List.replicate 100 (0 : u8)).length ≤ r2.offset ∧
      ∀ i, ¬ ((r1.offset ≤ i ∧ i < r1.offset + (List.replicate 100 (0 : u8)).length) ∧
              (r2.offset ≤ i ∧ i < r2.offset + (List.replicate 50 (0 : u8)).length)) := by
  obtain ⟨r1, h1⟩ := (MegaBufferChunk.construct ⟨7, fun _ => 0⟩).Push_some_isSome 1
    (List.replicate 100 0) false
  obtain ⟨rmid, hmid⟩ := r1.chunk.Push_some_isSome 1 (List.replicate 200 0) false
  obtain ⟨r2, h2⟩ := (rmid.chunk.TryReset (fun _ _ => false)).2.Push_some_isSome 2
    (List.replicate 50 0) true
  have hv0 := MegaBufferChunk.construct_valid ⟨7, fun _ => 0⟩
  have hc0 : (MegaBufferChunk.construct ⟨7, fun _ => 0⟩).freeRegion.offset = 4096 := by
    simp [MegaBufferChunk.construct, Buffer.subspan_page]
  have hv1 : r1.chunk.Valid := MegaBufferChunk.Push_valid hv0 h1
  have hvm : rmid.chunk.Valid := MegaBufferChunk.Push_valid hv1 hmid
  have hsame : (rmid.chunk.TryReset (fun _ _ => false)).2 = rmid.chunk :=
    MegaBufferChunk.TryReset_no_reset (fun _ _ => rfl)
  have hs : MegaBufferChunk.NoResetSteps r1.chunk (rmid.chunk.TryReset (fun _ _ => false)).2 :=
    .tryReset _ (.push _ _ _ (.refl _) hmid) (fun _ _ => rfl)
  have hb1 := MegaBufferChunk.Push_small hv0
    (by rw [hc0, chunkSize_eq, List.length_replicate]; omega) h1
  rw [hc0, List.length_replicate] at hb1
  have hbm := MegaBufferChunk.Push_small hv1
    (by rw [chunkSize_eq, List.length_replicate]; omega) hmid
  rw [List.length_replicate] at hbm
  have hb2 := MegaBufferChunk.Push_small (c := (rmid.chunk.TryReset (fun _ _ => false)).2)
    (by rw [hsame]; exact hvm)
    (by rw [chunkSize_eq, hsame, List.length_replicate]; omega) h2
  exact ⟨r1, r2, rmid, h1, hb1.1, hmid, h2, hb2.1,
    C4_allocations_disjoint _ _ (some 1) (some 2) _ _ false true r1 r2 h1 hb1.1 hs h2 hb2.1⟩

/-- C6, as stated, fails: on a fresh chunk 100 bytes pushed with a null token are allocated
and leave the cycle null, so `TryReset` returns true without moving the cursor back from 4196,
and the next `Push` of `C - P = 26210304` bytes returns the failure sentinel 0. -/
theorem C6_counterexample :
    ∃ r1 r2,
      (MegaBufferChunk.construct ⟨7, fun _ => 0⟩).Push none (List.replicate 100 0) false
        = some r1 ∧
      r1.offset = 4096 ∧ r1.chunk.Reachable ∧
      (r1.chunk.TryReset (fun _ _ => true)).1 = true ∧
      (r1.chunk.TryReset (fun _ _ => true)).2.freeRegion.offset = 4196 ∧
      (List.replicate 26210304 (0 : u8)).length ≤ MegaBufferChunkSize - PAGE_SIZE ∧
      (r1.chunk.TryReset (fun _ _ => true)).2.Push (some 1) (List.replicate 26210304 0) false
        = some r2 ∧
      r2.offset = 0 := by
  obtain ⟨r1, hr1⟩ := (MegaBufferChunk.construct ⟨7, fun _ => 0⟩).Push_null_cycle_isSome rfl
    none (List.replicate 100 0) false
  obtain ⟨ho, hfr, hcy⟩ := MegaBufferChunk.Push_pristine_state
    (c := MegaBufferChunk.construct ⟨7, fun _ => 0⟩) rfl
    (by rw [List.length_replicate]; simp only [PAGE_SIZE, chunkSize_eq]; omega) hr1
  rw [List.length_replicate] at hfr
  have hsame : r1.chunk.TryReset (fun _ _ => true) = (true, r1.chunk) := by
    simp [MegaBufferChunk.TryReset, hcy]
  have hbig : (List.replicate 26210304 (0 : u8)).length >
      (r1.chunk.alignFree false).freeRegion.size := by
    rw [MegaBufferChunk.alignFree_false, hfr, List.length_replicate]
    simp only []
    omega
  have hr2 := r1.chunk.Push_too_big (some 1) false hbig
  rw [MegaBufferChunk.alignFree_false] at hr2
  refine ⟨r1, ⟨0, r1.chunk, []⟩, hr1, ho, .push none _ false (.construct _) hr1,
    ?_, ?_, ?_, ?_, rfl⟩
  · rw [hsame]
  · rw [hsame, hfr]
  · rw [List.length_replicate]
    simp only [PAGE_SIZE, chunkSize_eq]
    omega
  · rw [hsame]
    exact hr2

/-- C6, amended: for a request of at most `C - P` bytes and either value of `pageAlign`,
`Push` on a freshly constructed chunk, and `Push` on a chunk reachable from construction
through calls of `Push` made with non-null tokens and calls of `TryReset` for which `TryReset`
has just returned true, returns and its offset is not the failure sentinel 0. -/
theorem C6_fresh_or_reclaimed_chunk_accepts :
    (∀ (backing : Buffer) (newCycle : Option FenceCycle) (data : List u8) (pageAlign : Bool),
      data.length ≤ MegaBufferChunkSize - PAGE_SIZE →
      ∃ r, (MegaBufferChunk.construct backing).Push newCycle data pageAlign = some r ∧
        r.offset ≠ 0) ∧
    (∀ (c : MegaBufferChunk), c.ReachableNonNull →
      ∀ (poll : FenceCycle → Bool → Bool) (newCycle : Option FenceCycle) (data : List u8)
        (pageAlign : Bool),
      (c.TryReset poll).1 = true →
      data.length ≤ MegaBufferChunkSize - PAGE_SIZE →
      ∃ r, (c.TryReset poll).2.Push newCycle data pageAlign = some r ∧ r.offset ≠ 0) := by
  constructor
  · intro backing newCycle data pageAlign hn
    obtain ⟨r, hr⟩ := (MegaBufferChunk.construct backing).Push_null_cycle_isSome rfl newCycle
      data pageAlign
    refine ⟨r, hr, ?_⟩
    rw [MegaBufferChunk.Push_pristine rfl hn hr]
    simp only [PAGE_SIZE]
    omega
  · intro c hc poll newCycle data pageAlign htrue hn
    have hnull : (c.TryReset poll).2.cycle = none := MegaBufferChunk.TryReset_true_cycle htrue
    have hreach : (c.TryReset poll).2.ReachableNonNull := .tryReset poll hc
    obtain ⟨r, hr⟩ := (c.TryReset poll).2.Push_null_cycle_isSome hnull newCycle data pageAlign
    refine ⟨r, hr, ?_⟩
    rw [MegaBufferChunk.Push_pristine (hreach.null_cycle hnull) hn hr]
    simp only [PAGE_SIZE]
    omega

/-- Witness for C6 as amended: 100 bytes pushed with token 1, the cycle completes, `TryReset`
returns true and the chunk then takes 5 page-aligned bytes. -/
theorem C6_fresh_or_reclaimed_chunk_accepts_witness :
    ∃ r1, (MegaBufferChunk.construct ⟨7, fun _ => 0⟩).Push (some 1) (List.replicate 100 0) false
        = some r1 ∧
      r1.chunk.ReachableNonNull ∧
      (r1.chunk.TryReset (fun _ _ => true)).1 = true ∧
      [(1 : u8), 2, 3, 4, 5].length ≤ MegaBufferChunkSize - PAGE_SIZE ∧
      ∃ r, (r1.chunk.TryReset (fun _ _ => true)).2.Push (some 4) [1, 2, 3, 4, 5] true = some r ∧
        r.offset ≠ 0 := by
  obtain ⟨r1, h1⟩ := (MegaBufferChunk.construct ⟨7, fun _ => 0⟩).Push_some_isSome 1
    (List.replicate 100 0) false
  have hreach : r1.chunk.ReachableNonNull := .push 1 _ false (.construct _) h1
  have htrue : (r1.chunk.TryReset (fun _ _ => true)).1 = true := by
    unfold MegaBufferChunk.TryReset
    split <;> simp
  have hn : [(1 : u8), 2, 3, 4, 5].length ≤ MegaBufferChunkSize - PAGE_SIZE := by
    simp only [List.length, PAGE_SIZE, chunkSize_eq]
    omega
  exact ⟨r1, h1, hreach, htrue, hn,
    C6_fresh_or_reclaimed_chunk_accepts.2 r1.chunk hreach (fun _ _ => true) (some 4)
      [1, 2, 3, 4, 5] true htrue hn⟩

/-- C7, as stated, fails: on a fresh chunk a push of one byte with a null token is allocated at
4096 and leaves the cycle null, so `TryReset` returns true without moving the cursor back, and
the next push without alignment returns 4097, not `P`. -/
theorem C7_counterexample :
    ∃ r1 r2,
      (MegaBufferChunk.construct ⟨7, fun _ => 0⟩).Push none [5] false = some r1 ∧
      r1.chunk.Reachable ∧
      (r1.chunk.TryReset (fun _ _ => true)).1 = true ∧
      [(6 : u8)].length ≤ MegaBufferChunkSize - PAGE_SIZE ∧
      (r1.chunk.TryReset (fun _ _ => true)).2.Push (some 1) [6] false = some r2 ∧
      r2.offset = 4097 ∧ r2.offset ≠ PAGE_SIZE := by
  obtain ⟨r1, hr1⟩ := (MegaBufferChunk.construct ⟨7, fun _ => 0⟩).Push_null_cycle_isSome rfl
    none [5] false
  have hc0 : (MegaBufferChunk.construct ⟨7, fun _ => 0⟩).freeRegion = ⟨4096, 26210304⟩ :=
    Buffer.subspan_page _
  have hfacts : r1.chunk.cycle = none ∧ r1.chunk.freeRegion = ⟨4097, 26210303⟩ := by
    rcases MegaBufferChunk.Push_cases hr1 with ⟨hgt, _, _, _⟩ | ⟨_, _, _, hf, hcy, _⟩
    · rw [MegaBufferChunk.alignFree_false, hc0] at hgt
      simp only [List.length] at hgt
      omega
    · rw [MegaBufferChunk.alignFree_false, hc0] at hf
      exact ⟨hcy, hf⟩
  obtain ⟨hcy, hfree⟩ := hfacts
  have hsame : r1.chunk.TryReset (fun _ _ => true) = (true, r1.chunk) := by
    simp [MegaBufferChunk.TryReset, hcy]
  obtain ⟨r2, hr2⟩ := r1.chunk.Push_some_isSome 1 [6] false
  have ho2 : r2.offset = 4097 := by
    rcases MegaBufferChunk.Push_cases hr2 with ⟨hgt, _, _, _⟩ | ⟨_, ho, _, _, _, _⟩
    · rw [MegaBufferChunk.alignFree_false, hfree] at hgt
      simp only [List.length] at hgt
      omega
    · rw [MegaBufferChunk.alignFree_false, hfree] at ho
      exact ho
  refine ⟨r1, r2, hr1, .push none [5] false (.construct _) hr1, ?_, ?_, ?_, ho2, ?_⟩
  · rw [hsame]
  · simp only [List.length, PAGE_SIZE, chunkSize_eq]; omega
  · rw [hsame]; exact hr2
  · rw [ho2]; simp only [PAGE_SIZE]; omega

/-- C7, amended: in every chunk state reachable from construction through calls of `Push` made
with non-null tokens and calls of `TryReset`, if `TryReset` returns true then the immediately
following `Push` with `pageAlign = false` and at most `C - P` bytes returns offset exactly
`P`. -/
theorem C7_push_after_reset_returns_page (c : MegaBufferChunk) (hc : c.ReachableNonNull)
    (poll : FenceCycle → Bool → Bool) (newCycle : Option FenceCycle) (data : List u8)
    (htrue : (c.TryReset poll).1 = true)
    (hn : data.length ≤ MegaBufferChunkSize - PAGE_SIZE) :
    ∃ r, (c.TryReset poll).2.Push newCycle data false = some r ∧ r.offset = PAGE_SIZE := by
  have hnull : (c.TryReset poll).2.cycle = none := MegaBufferChunk.TryReset_true_cycle htrue
  have hreach : (c.TryReset poll).2.ReachableNonNull := .tryReset poll hc
  obtain ⟨r, hr⟩ := (c.TryReset poll).2.Push_null_cycle_isSome hnull newCycle data false
  exact ⟨r, hr, MegaBufferChunk.Push_pristine (hreach.null_cycle hnull) hn hr⟩

/-- Witness for C7 as amended: 100 bytes pushed with token 1, the cycle completes, the reset
succeeds and the next push returns `P`. -/
theorem C7_push_after_reset_returns_page_witness :
    ∃ r1, (MegaBufferChunk.construct ⟨7, fun _ => 0⟩).Push (some 1) (List.replicate 100 0) false
        = some r1 ∧
      r1.chunk.ReachableNonNull ∧
      (r1.chunk.TryReset (fun _ _ => true)).1 = true ∧
      [(6 : u8)].length ≤ MegaBufferChunkSize - PAGE_SIZE ∧
      ∃ r, (r1.chunk.TryReset (fun _ _ => true)).2.Push (some 2) [6] false = some r ∧
        r.offset = PAGE_SIZE := by
  obtain ⟨r1, h1⟩ := (MegaBufferChunk.construct ⟨7, fun _ => 0⟩).Push_some_isSome 1
    (List.replicate 100 0) false
  have hreach : r1.chunk.ReachableNonNull := .push 1 _ false (.construct _) h1
  have htrue : (r1.chunk.TryReset (fun _ _ => true)).1 = true := by
    unfold MegaBufferChunk.TryReset
    split <;> simp
  have hn : [(6 : u8)].length ≤ MegaBufferChunkSize - PAGE_SIZE := by
    simp only [List.length, PAGE_SIZE, chunkSize_eq]; omega
  exact ⟨r1, h1, hreach, htrue, hn,
    C7_push_after_reset_returns_page r1.chunk hreach (fun _ _ => true) (some 2) [6] htrue hn⟩

/-- C9: `TryReset` returns false exactly when the cycle is non-null and its completion query,
called with the wait flag set, reports not complete; it returns true when the cycle is null and
when the query reports completion. -/
theorem C9_try_reset_result (c : MegaBufferChunk) (poll : FenceCycle → Bool → Bool) :
    ((c.TryReset poll).1 = false ↔ ∃ t, c.cycle = some t ∧ poll t true = false) ∧
    (c.cycle = none → (c.TryReset poll).1 = true) ∧
    (∀ t, c.cycle = some t → poll t true = true → (c.TryReset poll).1 = true) := by
  unfold MegaBufferChunk.TryReset
  cases hcy : c.cycle with
  | none => simp
  | some t =>
    by_cases hp : poll t true = true
    · simp [hp]
    · simp [hp]

/-- Witness for C9: a chunk whose cycle 3 has completed under a query that only answers true
with the wait flag set. -/
theorem C9_try_reset_result_witness :
    (MegaBufferChunk.mk ⟨7, fun _ => 0⟩ ⟨8192, 26206208⟩ (some 3)).cycle = some 3 ∧
    (fun (_ : FenceCycle) (wait : Bool) => wait) 3 true = true ∧
    ((MegaBufferChunk.mk ⟨7, fun _ => 0⟩ ⟨8192, 26206208⟩ (some 3)).TryReset
      (fun _ wait => wait)).1 = true :=
  ⟨rfl, rfl,
    (C9_try_reset_result (MegaBufferChunk.mk ⟨7, fun _ => 0⟩ ⟨8192, 26206208⟩ (some 3))
      (fun _ wait => wait)).2.2 3 rfl rfl⟩

/-- C10: a call of `Push` that returns a non-zero offset calls `ChainCycle` exactly once, on
the supplied token with the recorded cycle as argument, when the supplied token differs from
the recorded cycle, and not at all when they are identical; afterwards the recorded cycle is
the supplied token, and a directly following `Push` with the same token calls `ChainCycle` not
at all. -/
theorem C10_chain_only_on_token_change (c : MegaBufferChunk) (newCycle : Option FenceCycle)
    (data : List u8) (pageAlign : Bool) (r : PushResult)
    (h : c.Push newCycle data pageAlign = some r) (ho : r.offset ≠ 0) :
    (c.cycle ≠ newCycle → ∃ t, newCycle = some t ∧ r.chained = [⟨t, c.cycle⟩]) ∧
    (c.cycle = newCycle → r.chained = []) ∧
    r.chunk.cycle = newCycle ∧
    (∀ (data2 : List u8) (pageAlign2 : Bool) (r2 : PushResult),
      r.chunk.Push newCycle data2 pageAlign2 = some r2 → r2.chained = []) := by
  rcases MegaBufferChunk.Push_cases h with ⟨_, ho0, _, _⟩ | ⟨_, _, _, _, hcy, hch⟩
  · exact absurd ho0 ho
  · have hfault : c.cycle ≠ newCycle → ∃ t, newCycle = some t := by
      intro hne
      cases newCycle with
      | some t => exact ⟨t, rfl⟩
      | none =>
        exfalso
        unfold MegaBufferChunk.Push at h
        simp only [MegaBufferChunk.alignFree_cycle] at h
        split_ifs at h with h1
        cases h
        exact ho rfl
    refine ⟨?_, ?_, hcy, ?_⟩
    · intro hne
      obtain ⟨t, ht⟩ := hfault hne
      subst ht
      refine ⟨t, rfl, ?_⟩
      rw [hch]
      simp [hne]
    · intro heq
      rw [hch]
      cases newCycle with
      | none => rfl
      | some t => simp [heq]
    · intro data2 pageAlign2 r2 h2
      rcases MegaBufferChunk.Push_cases h2 with ⟨_, _, _, hch2⟩ | ⟨_, _, _, _, _, hch2⟩
      · exact hch2
      · rw [hch2]
        cases newCycle with
        | none => rfl
        | some t => simp [hcy]

/-- Witness for C10: on a chunk that recorded cycle 1, three bytes pushed with token 2. -/
theorem C10_chain_only_on_token_change_witness :
    ∃ r, (MegaBufferChunk.mk ⟨7, fun _ => 0⟩ ⟨4196, 26210204⟩ (some 1)).Push (some 2)
        [1, 2, 3] false = some r ∧ r.offset ≠ 0 ∧
      r.chained = [⟨2, some 1⟩] ∧ r.chunk.cycle = some 2 ∧
      (∀ (data2 : List u8) (pageAlign2 : Bool) (r2 : PushResult),
        r.chunk.Push (some 2) data2 pageAlign2 = some r2 → r2.chained = []) := by
  obtain ⟨r, hr⟩ := (MegaBufferChunk.mk ⟨7, fun _ => 0⟩ ⟨4196, 26210204⟩ (some 1)).Push_some_isSome
    2 [1, 2, 3] false
  have ho : r.offset ≠ 0 :=
    (MegaBufferChunk.Push_small (c := MegaBufferChunk.mk ⟨7, fun _ => 0⟩ ⟨4196, 26210204⟩ (some 1))
      (by decide) (by simp only [List.length, chunkSize_eq]; omega) hr).1
  have hall := C10_chain_only_on_token_change
    (MegaBufferChunk.mk ⟨7, fun _ => 0⟩ ⟨4196, 26210204⟩ (some 1)) (some 2) [1, 2, 3] false r hr ho
  obtain ⟨t, ht, hch⟩ := hall.1 (by simp)
  cases ht
  exact ⟨r, hr, ho, hch, hall.2.2.1, hall.2.2.2⟩

/-- C2: from every allocator state reachable from construction through calls of `Push` made
with non-null tokens, and whatever the completion queries answer, a call of the allocator's
`Push` with a non-null token throws the allocation-size exception if and only if
`data.size() > C - P`; for `data.size() ≤ C - P` it returns a handle and an offset that is
not 0. -/
theorem C2_fatal_iff_oversized (a : MegaBufferAllocator) (ha : a.ReachableNonNull)
    (fresh : Buffer) (poll : Nat → FenceCycle → Bool → Bool) (t : FenceCycle) (data : List u8)
    (pageAlign : Bool) :
    ∃ r, a.Push fresh poll (some t) data pageAlign = some r ∧
      ((∃ size, r.outcome = .thrown size) ↔ data.length > MegaBufferChunkSize - PAGE_SIZE) ∧
      (data.length ≤ MegaBufferChunkSize - PAGE_SIZE →
        ∃ allocation, r.outcome = .returned allocation ∧ allocation.offset ≠ 0) := by
  have hv := ha.allocatorValidNonNull
  obtain ⟨r, hr⟩ := MegaBufferAllocator.allocatorPush_some_isSome hv fresh poll t data pageAlign
  refine ⟨r, hr, ?_⟩
  obtain ⟨c, r1, hc, hr1, hcase⟩ := MegaBufferAllocator.allocatorPush_cases hr
  have hcv : c.ValidNonNull := hv.2 c (List.getElem?_mem hc)
  rcases hcase with ⟨ho, hout, _, _⟩ | ⟨_, c2, r2, hc2, hr2, hout, _, _⟩
  · have hsize := MegaBufferChunk.Push_ne_zero_size hcv.1 hr1 ho
    rw [hout]
    refine ⟨⟨?_, fun hgt => absurd hsize (by omega)⟩, fun _ => ⟨_, rfl, ho⟩⟩
    rintro ⟨size, hs⟩
    cases hs
  · have h1 : ∀ c ∈ a.chunks.set a.activeChunk r1.chunk, c.ValidNonNull :=
      forall_mem_set hv.2 _ (MegaBufferChunk.Push_validNonNull hcv hr1)
    obtain ⟨_, _, c2', hc2', hpristine, _⟩ := reclaimOrGrow_validNonNull fresh poll h1
    rw [hc2] at hc2'
    cases hc2'
    have hiff := MegaBufferChunk.Push_pristine_iff hpristine hr2
    rw [hout]
    by_cases ho2 : r2.offset ≠ 0
    · rw [if_pos ho2]
      have hsize := hiff.1 ho2
      refine ⟨⟨?_, fun hgt => absurd hsize (by omega)⟩, fun _ => ⟨_, rfl, ho2⟩⟩
      rintro ⟨size, hs⟩
      cases hs
    · rw [if_neg ho2]
      have hbig : ¬ data.length ≤ MegaBufferChunkSize - PAGE_SIZE := fun hle => ho2 (hiff.2 hle)
      exact ⟨⟨fun _ => by omega, fun _ => ⟨_, rfl⟩⟩, fun hle => absurd hle hbig⟩

/-- Witness for C2: a fresh allocator after one push of 100 bytes takes three more bytes. -/
theorem C2_fatal_iff_oversized_witness :
    ∃ r0, (MegaBufferAllocator.construct ⟨7, fun _ => 0⟩).Push ⟨8, fun _ => 0⟩
        (fun _ _ _ => false) (some 1) (List.replicate 100 0) false = some r0 ∧
      r0.allocator.ReachableNonNull ∧
      ∃ r, r0.allocator.Push ⟨9, fun _ => 0⟩ (fun _ _ _ => false) (some 2) [1, 2, 3] true
          = some r ∧
        ((∃ size, r.outcome = .thrown size) ↔
          [(1 : u8), 2, 3].length > MegaBufferChunkSize - PAGE_SIZE) ∧
        ([(1 : u8), 2, 3].length ≤ MegaBufferChunkSize - PAGE_SIZE →
          ∃ allocation, r.outcome = .returned allocation ∧ allocation.offset ≠ 0) := by
  obtain ⟨r0, h0⟩ := MegaBufferAllocator.allocatorPush_some_isSome
    (MegaBufferAllocator.allocatorConstruct_validNonNull ⟨7, fun _ => 0⟩) ⟨8, fun _ => 0⟩
    (fun _ _ _ => false) 1 (List.replicate 100 0) false
  have hreach : r0.allocator.ReachableNonNull := .push _ _ 1 _ false (.construct _) h0
  exact ⟨r0, h0, hreach,
    C2_fatal_iff_oversized r0.allocator hreach ⟨9, fun _ => 0⟩ (fun _ _ _ => false) 2
      [1, 2, 3] true⟩

/-- C5: during a call of the allocator's `Push` from a reachable state, a chunk whose recorded
cycle is non-null and whose completion query answers not complete is not reset: it keeps a
recorded cycle, its cursor does not move backwards, and no byte below its cursor, where all
ranges handed out since its last reset lie, is overwritten. -/
theorem C5_incomplete_chunk_not_reset (a : MegaBufferAllocator) (ha : a.Reachable)
    (fresh : Buffer) (poll : Nat → FenceCycle → Bool → Bool) (cycle : Option FenceCycle)
    (data : List u8) (pageAlign : Bool) (r : AllocatorPushResult)
    (h : a.Push fresh poll cycle data pageAlign = some r)
    (i : Nat) (c : MegaBufferChunk) (t : FenceCycle)
    (hi : a.chunks[i]? = some c) (hcy : c.cycle = some t) (hp : poll i t true = false) :
    ∃ c2, r.allocator.chunks[i]? = some c2 ∧ c2.cycle ≠ none ∧
      c.freeRegion.offset ≤ c2.freeRegion.offset ∧
      ∀ j, j < c.freeRegion.offset → c2.backing.bytes j = c.backing.bytes j := by
  have hv := ha.allocatorValid
  have hilt : i < a.chunks.length := by
    by_contra hge
    rw [List.getElem?_eq_none (by omega)] at hi
    cases hi
  obtain ⟨c0, r1, hc0, hr1, hcase⟩ := MegaBufferAllocator.allocatorPush_cases h
  have hc0v : c0.Valid := hv.2 c0 (List.getElem?_mem hc0)
  by_cases hia : a.activeChunk = i
  · -- the chunk is the active one
    have hcc : c0 = c := by
      rw [hia, hi] at hc0
      exact (Option.some.inj hc0).symm
    subst hcc
    have hset : (a.chunks.set a.activeChunk r1.chunk)[i]? = some r1.chunk := by
      rw [List.getElem?_set, if_pos hia, if_pos (by omega)]
    have hkeep := MegaBufferChunk.Push_keeps hcy hr1
    rcases hcase with ⟨_, _, hal, _⟩ | ⟨ho, c2, r2, _, _, _, hal, _⟩
    · exact ⟨r1.chunk, by rw [hal]; exact hset, hkeep⟩
    · have hfail : r1.chunk = c0.alignFree pageAlign := by
        obtain ⟨hP, _⟩ := MegaBufferChunk.alignFree_valid pageAlign hc0v
        simp only [PAGE_SIZE] at hP
        rcases MegaBufferChunk.Push_cases hr1 with ⟨_, _, hc, _⟩ | ⟨_, ho1, _, _, _, _⟩
        · exact hc
        · omega
      have hcy1 : r1.chunk.cycle = some t := by
        rw [hfail, MegaBufferChunk.alignFree_cycle, hcy]
      obtain ⟨hne, hget⟩ := reclaimOrGrow_keep fresh poll _ i r1.chunk t hset hcy1 hp
      refine ⟨r1.chunk, ?_, hkeep⟩
      rw [hal]
      simp only []
      rw [List.getElem?_set, if_neg hne]
      exact hget
  · -- another chunk is the active one
    have hset : (a.chunks.set a.activeChunk r1.chunk)[i]? = some c := by
      rw [List.getElem?_set, if_neg hia]
      exact hi
    have hkeep : c.cycle ≠ none ∧ c.freeRegion.offset ≤ c.freeRegion.offset ∧
        ∀ j, j < c.freeRegion.offset → c.backing.bytes j = c.backing.bytes j :=
      ⟨by rw [hcy]; exact Option.some_ne_none t, Nat.le_refl _, fun _ _ => rfl⟩
    rcases hcase with ⟨_, _, hal, _⟩ | ⟨_, c2, r2, _, _, _, hal, _⟩
    · exact ⟨c, by rw [hal]; exact hset, hkeep⟩
    · obtain ⟨hne, hget⟩ := reclaimOrGrow_keep fresh poll _ i c t hset hcy hp
      refine ⟨c, ?_, hkeep⟩
      rw [hal]
      simp only []
      rw [List.getElem?_set, if_neg hne]
      exact hget

/-- Witness for C5: the only chunk holds 100 bytes under cycle 1, which is not complete, and
an oversized request arrives. -/
theorem C5_incomplete_chunk_not_reset_witness :
    ∃ r0 c r, (MegaBufferAllocator.construct ⟨7, fun _ => 0⟩).Push ⟨8, fun _ => 0⟩
        (fun _ _ _ => false) (some 1) (List.replicate 100 0) false = some r0 ∧
      r0.allocator.Reachable ∧
      r0.allocator.Push ⟨9, fun _ => 0⟩ (fun _ _ _ => false) (some 2)
        (List.replicate 26214400 0) false = some r ∧
      r0.allocator.chunks[0]? = some c ∧ c.cycle = some 1 ∧
      (fun (_ : Nat) (_ : FenceCycle) (_ : Bool) => false) 0 1 true = false ∧
      ∃ c2, r.allocator.chunks[0]? = some c2 ∧ c2.cycle ≠ none ∧
        c.freeRegion.offset ≤ c2.freeRegion.offset ∧
        ∀ j, j < c.freeRegion.offset → c2.backing.bytes j = c.backing.bytes j := by
  have hv0 := MegaBufferAllocator.allocatorConstruct_validNonNull ⟨7, fun _ => 0⟩
  obtain ⟨r0, h0⟩ := MegaBufferAllocator.allocatorPush_some_isSome hv0 ⟨8, fun _ => 0⟩
    (fun _ _ _ => false) 1 (List.replicate 100 0) false
  have hreach : r0.allocator.Reachable := .push _ _ (some 1) _ false (.construct _) h0
  obtain ⟨r, hr⟩ := MegaBufferAllocator.allocatorPush_some_isSome
    (MegaBufferAllocator.allocatorPush_validNonNull hv0 h0) ⟨9, fun _ => 0⟩
    (fun _ _ _ => false) 2 (List.replicate 26214400 0) false
  obtain ⟨c0, r1, hc0, hr1, hcase⟩ := MegaBufferAllocator.allocatorPush_cases h0
  have hc0eq : c0 = MegaBufferChunk.construct ⟨7, fun _ => 0⟩ := by
    simp only [MegaBufferAllocator.construct, List.getElem?_cons_zero, Option.some.injEq] at hc0
    exact hc0.symm
  have hsmall := MegaBufferChunk.Push_small (hv0.2 c0 (List.getElem?_mem hc0)).1
    (by rw [hc0eq, chunkSize_eq, List.length_replicate]
        simp only [MegaBufferChunk.construct, Buffer.subspan_page]
        omega) hr1
  have hcyc : r1.chunk.cycle = some 1 := by
    rcases MegaBufferChunk.Push_cases hr1 with ⟨_, ho, _, _⟩ | ⟨_, _, _, _, hcy, _⟩
    · exact absurd ho hsmall.1
    · exact hcy
  have hchunks : r0.allocator.chunks[0]? = some r1.chunk := by
    rcases hcase with ⟨_, _, hal, _⟩ | ⟨ho, _⟩
    · rw [hal]
      simp [MegaBufferAllocator.construct]
    · exact absurd ho hsmall.1
  exact ⟨r0, r1.chunk, r, h0, hreach, hr, hchunks, hcyc, rfl,
    C5_incomplete_chunk_not_reset r0.allocator hreach ⟨9, fun _ => 0⟩ (fun _ _ _ => false)
      (some 2) (List.replicate 26214400 0) false r hr 0 r1.chunk 1 hchunks hcyc rfl⟩

/-- C8: with `pageAlign = true` every non-zero offset returned by the chunk's `Push`, and so
the offset of every allocation returned by the allocator's `Push`, is a multiple of `P`. -/
theorem C8_page_aligned_offsets :
    (∀ (c : MegaBufferChunk) (newCycle : Option FenceCycle) (data : List u8) (r : PushResult),
      c.Push newCycle data true = some r → r.offset ≠ 0 → PAGE_SIZE ∣ r.offset) ∧
    (∀ (a : MegaBufferAllocator) (fresh : Buffer) (poll : Nat → FenceCycle → Bool → Bool)
      (cycle : Option FenceCycle) (data : List u8) (r : AllocatorPushResult)
      (allocation : Allocation),
      a.Push fresh poll cycle data true = some r → r.outcome = .returned allocation →
      PAGE_SIZE ∣ allocation.offset) := by
  have hchunk : ∀ (c : MegaBufferChunk) (newCycle : Option FenceCycle) (data : List u8)
      (r : PushResult), c.Push newCycle data true = some r → PAGE_SIZE ∣ r.offset := by
    intro c newCycle data r h
    rcases MegaBufferChunk.Push_cases h with ⟨_, ho, _, _⟩ | ⟨_, ho, _, _, _, _⟩
    · rw [ho]
      exact Nat.dvd_zero _
    · rw [ho, MegaBufferChunk.alignFree_true]
      simp only [PAGE_SIZE]
      exact Nat.dvd_mul_left _ _
  refine ⟨fun c newCycle data r h _ => hchunk c newCycle data r h, ?_⟩
  intro a fresh poll cycle data r allocation h hout
  obtain ⟨c, r1, _, hr1, hcase⟩ := MegaBufferAllocator.allocatorPush_cases h
  rcases hcase with ⟨_, hout1, _, _⟩ | ⟨_, c2, r2, _, hr2, hout2, _, _⟩
  · rw [hout1] at hout
    cases hout
    exact hchunk c cycle data r1 hr1
  · rw [hout2] at hout
    split_ifs at hout
    cases hout
    exact hchunk c2 cycle data r2 hr2

/-- Witness for C8: on a chunk with cursor 4396 three page-aligned bytes land at 8192. -/
theorem C8_page_aligned_offsets_witness :
    ∃ r, (MegaBufferChunk.mk ⟨7, fun _ => 0⟩ ⟨4396, 26210004⟩ (some 1)).Push (some 2)
        [1, 2, 3] true = some r ∧ r.offset ≠ 0 ∧ PAGE_SIZE ∣ r.offset := by
  obtain ⟨r, hr⟩ := (MegaBufferChunk.mk ⟨7, fun _ => 0⟩ ⟨4396, 26210004⟩ (some 1)).Push_some_isSome
    2 [1, 2, 3] true
  have ho : r.offset ≠ 0 :=
    (MegaBufferChunk.Push_small (c := MegaBufferChunk.mk ⟨7, fun _ => 0⟩ ⟨4396, 26210004⟩ (some 1))
      (by decide) (by simp only [List.length, chunkSize_eq]; omega) hr).1
  exact ⟨r, hr, ho, C8_page_aligned_offsets.1 _ (some 2) [1, 2, 3] r hr ho⟩

/-- C15: in every reachable chunk state, whenever `Push` returns the sentinel 0 the backing is
as before (no byte has been written), the recorded cycle is unchanged and `ChainCycle` has not
been called. -/
theorem C15_failed_push_writes_nothing (c : MegaBufferChunk) (hc : c.Reachable)
    (newCycle : Option FenceCycle) (data : List u8) (pageAlign : Bool) (r : PushResult)
    (h : c.Push newCycle data pageAlign = some r) (h0 : r.offset = 0) :
    r.chunk.backing = c.backing ∧ (∀ i, r.chunk.backing.bytes i = c.backing.bytes i) ∧
    r.chunk.cycle = c.cycle ∧ r.chained = [] := by
  obtain ⟨_, hchunk, hch⟩ := MegaBufferChunk.Push_zero hc.chunkValid h h0
  rw [hchunk, MegaBufferChunk.alignFree_backing, MegaBufferChunk.alignFree_cycle]
  exact ⟨rfl, fun _ => rfl, rfl, hch⟩

/-- Witness for C15: a fresh chunk refuses a request of the full chunk size. -/
theorem C15_failed_push_writes_nothing_witness :
    ∃ r, (MegaBufferChunk.construct ⟨7, fun _ => 0⟩).Push (some 1)
        (List.replicate 26214400 0) true = some r ∧ r.offset = 0 ∧
      (MegaBufferChunk.construct ⟨7, fun _ => 0⟩).Reachable ∧
      r.chunk.backing = (MegaBufferChunk.construct ⟨7, fun _ => 0⟩).backing ∧
      (∀ i, r.chunk.backing.bytes i =
        (MegaBufferChunk.construct ⟨7, fun _ => 0⟩).backing.bytes i) ∧
      r.chunk.cycle = (MegaBufferChunk.construct ⟨7, fun _ => 0⟩).cycle ∧ r.chained = [] := by
  obtain ⟨r, hr⟩ := (MegaBufferChunk.construct ⟨7, fun _ => 0⟩).Push_some_isSome 1
    (List.replicate 26214400 0) true
  have h0 : r.offset = 0 := by
    by_contra hne
    have hle := (MegaBufferChunk.Push_pristine_iff (c := MegaBufferChunk.construct ⟨7, fun _ => 0⟩)
      rfl hr).1 hne
    simp only [List.length_replicate, PAGE_SIZE, chunkSize_eq] at hle
    omega
  exact ⟨r, hr, h0, .construct _,
    C15_failed_push_writes_nothing _ (.construct _) (some 1) _ true r hr h0⟩

/-- C16: in every chunk state reachable from construction through `Push` and `TryReset` the
free region is the suffix of the backing that starts at a cursor `f` with `P ≤ f ≤ C` and has
size `C - f`; every `subspan` taken by `Push` and by the reset is in bounds; a `Push`, whether
it allocates or not, never moves the cursor backwards; and `TryReset` either executes the
reset, which puts the free region back to the backing minus its first page, or leaves the chunk
as it is. -/
theorem C16_free_region_suffix (c : MegaBufferChunk) (hc : c.Reachable) :
    (PAGE_SIZE ≤ c.freeRegion.offset ∧ c.freeRegion.offset ≤ MegaBufferChunkSize ∧
      c.freeRegion.size = MegaBufferChunkSize - c.freeRegion.offset ∧
      c.freeRegion = c.backing.subspan c.freeRegion.offset) ∧
    (∀ (data : List u8) (pageAlign : Bool), c.PushInBounds data pageAlign) ∧
    c.backing.view.subspanInBounds PAGE_SIZE ∧
    (∀ (newCycle : Option FenceCycle) (data : List u8) (pageAlign : Bool) (r : PushResult),
      c.Push newCycle data pageAlign = some r →
      c.freeRegion.offset ≤ r.chunk.freeRegion.offset) ∧
    (∀ (poll : FenceCycle → Bool → Bool),
      ((∃ t, c.cycle = some t ∧ poll t true = true) ∧
        (c.TryReset poll).2.freeRegion = c.backing.subspan PAGE_SIZE ∧
        (c.TryReset poll).2.freeRegion.offset = PAGE_SIZE) ∨
      (c.TryReset poll).2 = c) := by
  obtain ⟨hP, hS⟩ := hc.chunkValid
  refine ⟨⟨hP, by omega, by omega, ?_⟩, ?_, ?_, ?_, ?_⟩
  · cases hfr : c.freeRegion with
    | mk offset size =>
      rw [hfr] at hS
      simp only [Buffer.subspan, Buffer.view, span.subspan, span.mk.injEq] at hS ⊢
      exact ⟨by omega, by omega⟩
  · intro data pageAlign
    refine ⟨?_, ?_⟩
    · intro _
      simp only [span.subspanInBounds, Buffer.view, AlignUp_page]
      simp only [PAGE_SIZE, chunkSize_eq] at hP hS ⊢
      omega
    · intro hle
      simp only [span.subspanCountInBounds, span.subspanInBounds]
      exact ⟨by omega, hle⟩
  · simp only [span.subspanInBounds, Buffer.view, PAGE_SIZE, chunkSize_eq]
    omega
  · intro newCycle data pageAlign r h
    exact MegaBufferChunk.Push_offset_le h
  · intro poll
    cases hcy : c.cycle with
    | none =>
      right
      simp [MegaBufferChunk.TryReset, hcy]
    | some t =>
      by_cases hp : poll t true = true
      · left
        refine ⟨⟨t, rfl, hp⟩, ?_, ?_⟩
        · simp [MegaBufferChunk.TryReset, hcy, hp]
        · have hfree : (c.TryReset poll).2.freeRegion = c.backing.subspan PAGE_SIZE := by
            simp [MegaBufferChunk.TryReset, hcy, hp]
          rw [hfree, Buffer.subspan_page]
          rfl
      · right
        simp [MegaBufferChunk.TryReset, hcy, hp]

/-- Witness for C16: the chunk state after three bytes were pushed on a fresh chunk. -/
theorem C16_free_region_suffix_witness :
    ∃ r, (MegaBufferChunk.construct ⟨7, fun _ => 0⟩).Push (some 1) [1, 2, 3] false = some r ∧
      r.chunk.Reachable ∧
      (PAGE_SIZE ≤ r.chunk.freeRegion.offset ∧ r.chunk.freeRegion.offset ≤ MegaBufferChunkSize ∧
        r.chunk.freeRegion.size = MegaBufferChunkSize - r.chunk.freeRegion.offset ∧
        r.chunk.freeRegion = r.chunk.backing.subspan r.chunk.freeRegion.offset) ∧
      (∀ (data : List u8) (pageAlign : Bool), r.chunk.PushInBounds data pageAlign) := by
  obtain ⟨r, hr⟩ := (MegaBufferChunk.construct ⟨7, fun _ => 0⟩).Push_some_isSome 1 [1, 2, 3] false
  have hreach : r.chunk.Reachable := .push (some 1) [1, 2, 3] false (.construct _) hr
  exact ⟨r, hr, hreach, (C16_free_region_suffix r.chunk hreach).1,
    (C16_free_region_suffix r.chunk hreach).2.1⟩

/-- C18: there is a reachable chunk state and a data size for which `Push` without page
alignment allocates while the same `Push` with page alignment returns the sentinel 0: after
one byte was pushed on a fresh chunk the cursor is 4097, 26210303 bytes are free and fit
exactly, but behind the next page boundary 8192 only 26206208 bytes are left. -/
theorem C18_alignment_can_cause_failure :
    ∃ r0 r1 r2,
      (MegaBufferChunk.construct ⟨7, fun _ => 0⟩).Push (some 1) [0] false = some r0 ∧
      r0.chunk.Reachable ∧
      (List.replicate 26210303 (0 : u8)).length ≤ r0.chunk.freeRegion.size ∧
      r0.chunk.Push (some 1) (List.replicate 26210303 0) false = some r1 ∧ r1.offset = 4097 ∧
      r0.chunk.Push (some 1) (List.replicate 26210303 0) true = some r2 ∧ r2.offset = 0 ∧
      (r0.chunk.alignFree true).freeRegion.size < (List.replicate 26210303 (0 : u8)).length := by
  obtain ⟨r0, h0⟩ := (MegaBufferChunk.construct ⟨7, fun _ => 0⟩).Push_some_isSome 1 [0] false
  obtain ⟨_, hfr, _⟩ := MegaBufferChunk.construct_push_one h0
  obtain ⟨r1, h1⟩ := r0.chunk.Push_some_isSome 1 (List.replicate 26210303 0) false
  obtain ⟨r2, h2⟩ := r0.chunk.Push_some_isSome 1 (List.replicate 26210303 0) true
  have hsize : (r0.chunk.alignFree true).freeRegion.size < 26210303 := by
    rw [MegaBufferChunk.alignFree_true, hfr]
    simp only []
    omega
  refine ⟨r0, r1, r2, h0, .push (some 1) [0] false (.construct _) h0, ?_, h1, ?_, h2, ?_, ?_⟩
  · rw [hfr, List.length_replicate]
  · rcases MegaBufferChunk.Push_cases h1 with ⟨hgt, _, _, _⟩ | ⟨_, ho, _, _, _, _⟩
    · rw [MegaBufferChunk.alignFree_false, hfr, List.length_replicate] at hgt
      simp only [] at hgt
      omega
    · rw [ho, MegaBufferChunk.alignFree_false, hfr]
  · rcases MegaBufferChunk.Push_cases h2 with ⟨_, ho, _, _⟩ | ⟨hle, _, _, _, _, _⟩
    · exact ho
    · rw [List.length_replicate] at hle
      omega
  · rw [List.length_replicate]
    exact hsize

/-- C19: in every reachable chunk state a `Push` without page alignment that returns 0 leaves
the free region, the cycle and the backing as they were; a `Push` with page alignment that
returns 0 leaves the cycle and the backing as they were but the free region starting at the
cursor rounded up to the next multiple of `P`; and there is a reachable state in which the
cursor differs after such a failed call. -/
theorem C19_failed_push_atomic_only_unaligned :
    (∀ (c : MegaBufferChunk), c.Reachable →
      ∀ (newCycle : Option FenceCycle) (data : List u8) (r : PushResult),
      c.Push newCycle data false = some r → r.offset = 0 →
      r.chunk.freeRegion = c.freeRegion ∧ r.chunk.cycle = c.cycle ∧
      r.chunk.backing = c.backing) ∧
    (∀ (c : MegaBufferChunk), c.Reachable →
      ∀ (newCycle : Option FenceCycle) (data : List u8) (r : PushResult),
      c.Push newCycle data true = some r → r.offset = 0 →
      r.chunk.freeRegion.offset = AlignUp c.freeRegion.offset PAGE_SIZE ∧
      PAGE_SIZE ∣ r.chunk.freeRegion.offset ∧
      c.freeRegion.offset ≤ r.chunk.freeRegion.offset ∧
      r.chunk.freeRegion.offset < c.freeRegion.offset + PAGE_SIZE ∧
      r.chunk.freeRegion.size = MegaBufferChunkSize - r.chunk.freeRegion.offset ∧
      r.chunk.cycle = c.cycle ∧ r.chunk.backing = c.backing) ∧
    (∃ r0 r,
      (MegaBufferChunk.construct ⟨7, fun _ => 0⟩).Push (some 1) [0] false = some r0 ∧
      r0.chunk.Reachable ∧
      r0.chunk.Push (some 1) (List.replicate 26214400 0) true = some r ∧ r.offset = 0 ∧
      r0.chunk.freeRegion.offset = 4097 ∧ r.chunk.freeRegion.offset = 8192) := by
  refine ⟨?_, ?_, ?_⟩
  · intro c hc newCycle data r h h0
    obtain ⟨_, hchunk, _⟩ := MegaBufferChunk.Push_zero hc.chunkValid h h0
    rw [hchunk, MegaBufferChunk.alignFree_false]
    exact ⟨rfl, rfl, rfl⟩
  · intro c hc newCycle data r h h0
    obtain ⟨_, hchunk, _⟩ := MegaBufferChunk.Push_zero hc.chunkValid h h0
    rw [hchunk, AlignUp_page, MegaBufferChunk.alignFree_true]
    refine ⟨rfl, ?_, ?_, ?_, ?_, rfl, rfl⟩
    · simp only [PAGE_SIZE]
      exact Nat.dvd_mul_left _ _
    · simp only []
      omega
    · simp only [PAGE_SIZE]
      omega
    · simp only [chunkSize_eq]
  · obtain ⟨r0, h0⟩ := (MegaBufferChunk.construct ⟨7, fun _ => 0⟩).Push_some_isSome 1 [0] false
    obtain ⟨_, hfr, _⟩ := MegaBufferChunk.construct_push_one h0
    obtain ⟨r, hr⟩ := r0.chunk.Push_some_isSome 1 (List.replicate 26214400 0) true
    have hreach : r0.chunk.Reachable := .push (some 1) [0] false (.construct _) h0
    have hsz := (MegaBufferChunk.alignFree_valid true hreach.chunkValid).2
    have hfail : r.offset = 0 ∧ r.chunk = r0.chunk.alignFree true := by
      rcases MegaBufferChunk.Push_cases hr with ⟨_, ho, hc, _⟩ | ⟨hle, _, _, _, _, _⟩
      · exact ⟨ho, hc⟩
      · have hoff : (r0.chunk.alignFree true).freeRegion.offset = 8192 := by
          rw [MegaBufferChunk.alignFree_true, hfr]
          simp only []
        rw [List.length_replicate] at hle
        rw [hoff, chunkSize_eq] at hsz
        omega
    refine ⟨r0, r, h0, hreach, hr, hfail.1, by rw [hfr], ?_⟩
    rw [hfail.2, MegaBufferChunk.alignFree_true, hfr]
    simp only []

/-- Witness for C19: on the chunk with cursor 4097 a page-aligned request of the full chunk
size fails and leaves the cursor at 8192. -/
theorem C19_failed_push_atomic_only_unaligned_witness :
    ∃ r0 r,
      (MegaBufferChunk.construct ⟨7, fun _ => 0⟩).Push (some 1) [0] false = some r0 ∧
      r0.chunk.Reachable ∧
      r0.chunk.Push (some 1) (List.replicate 26214400 0) true = some r ∧ r.offset = 0 ∧
      r.chunk.freeRegion.offset = AlignUp r0.chunk.freeRegion.offset PAGE_SIZE ∧
      PAGE_SIZE ∣ r.chunk.freeRegion.offset ∧
      r0.chunk.freeRegion.offset ≤ r.chunk.freeRegion.offset ∧
      r.chunk.freeRegion.offset < r0.chunk.freeRegion.offset + PAGE_SIZE ∧
      r.chunk.freeRegion.size = MegaBufferChunkSize - r.chunk.freeRegion.offset ∧
      r.chunk.cycle = r0.chunk.cycle ∧ r.chunk.backing = r0.chunk.backing := by
  obtain ⟨r0, r, h0, hreach, hr, hz, _, _⟩ := C19_failed_push_atomic_only_unaligned.2.2
  exact ⟨r0, r, h0, hreach, hr, hz,
    C19_failed_push_atomic_only_unaligned.2.1 r0.chunk hreach (some 1) _ r hr hz⟩

/-- C17, as stated, fails: one byte pushed with a null token on a fresh chunk is allocated at
4096, so a successful `Push` has occurred since construction, yet the recorded cycle is still
null. -/
theorem C17_counterexample :
    ∃ r, (MegaBufferChunk.construct ⟨7, fun _ => 0⟩).Push none [5] false = some r ∧
      r.offset = 4096 ∧ r.chunk.ReachableWith true ∧ r.chunk.cycle = none := by
  obtain ⟨r, hr⟩ := (MegaBufferChunk.construct ⟨7, fun _ => 0⟩).Push_null_cycle_isSome rfl
    none [5] false
  obtain ⟨ho, _, hcy⟩ := MegaBufferChunk.construct_push_one hr
  have hreach := MegaBufferChunk.ReachableWith.push none [5] false (.construct ⟨7, fun _ => 0⟩) hr
  have hflag : (false || decide (r.offset ≠ 0)) = true := by
    rw [ho]
    rfl
  rw [hflag] at hreach
  exact ⟨r, hr, ho, hreach, hcy⟩

/-- C17, amended: in every chunk state reachable from construction through calls of `Push`
made with non-null tokens and calls of `TryReset`, the recorded cycle is non-null if and only
if a call of `Push` has returned a non-zero offset since the construction or since the last
call of `TryReset` that returned true. -/
theorem C17_cycle_iff_allocated (c : MegaBufferChunk) (allocated : Bool)
    (h : c.ReachableNonNullWith allocated) : c.cycle ≠ none ↔ allocated = true := by
  have hboth : c.Valid ∧ (c.cycle ≠ none ↔ allocated = true) := by
    induction h with
    | construct backing =>
      exact ⟨MegaBufferChunk.construct_valid backing, by simp [MegaBufferChunk.construct]⟩
    | @push c allocated r t data pageAlign _ hp ih =>
      refine ⟨MegaBufferChunk.Push_valid ih.1 hp, ?_⟩
      by_cases h0 : r.offset = 0
      · obtain ⟨_, hchunk, _⟩ := MegaBufferChunk.Push_zero ih.1 hp h0
        rw [hchunk, MegaBufferChunk.alignFree_cycle, ih.2]
        simp [h0]
      · rcases MegaBufferChunk.Push_cases hp with ⟨_, ho, _, _⟩ | ⟨_, _, _, _, hcy, _⟩
        · exact absurd ho h0
        · rw [hcy]
          simp [h0]
    | @tryReset c allocated poll _ ih =>
      refine ⟨MegaBufferChunk.TryReset_valid poll ih.1, ?_⟩
      cases hres : (c.TryReset poll).1 with
      | true =>
        rw [MegaBufferChunk.TryReset_true_cycle hres]
        simp
      | false =>
        rw [MegaBufferChunk.TryReset_false_snd hres, ih.2]
        simp
  exact hboth.2

/-- Witness for C17 as amended: one byte pushed with token 1 on a fresh chunk. -/
theorem C17_cycle_iff_allocated_witness :
    ∃ r, (MegaBufferChunk.construct ⟨7, fun _ => 0⟩).Push (some 1) [5] false = some r ∧
      r.chunk.ReachableNonNullWith (false || decide (r.offset ≠ 0)) ∧
      (r.chunk.cycle ≠ none ↔ (false || decide (r.offset ≠ 0)) = true) := by
  obtain ⟨r, hr⟩ := (MegaBufferChunk.construct ⟨7, fun _ => 0⟩).Push_some_isSome 1 [5] false
  have hreach := MegaBufferChunk.ReachableNonNullWith.push 1 [5] false
    (.construct ⟨7, fun _ => 0⟩) hr
  exact ⟨r, hr, hreach, C17_cycle_iff_allocated r.chunk _ hreach⟩

/-- C11: every call of the allocator's `Push`, whether it returns or throws, leaves the number
of chunks unchanged or increased by exactly one, and it increases exactly when the first
attempt on the active chunk returned 0 and `TryReset` returned false for every existing
chunk. -/
theorem C11_chunk_count_grows_by_one (a : MegaBufferAllocator) (fresh : Buffer)
    (poll : Nat → FenceCycle → Bool → Bool) (cycle : Option FenceCycle) (data : List u8)
    (pageAlign : Bool) (r : AllocatorPushResult)
    (h : a.Push fresh poll cycle data pageAlign = some r) :
    (r.allocator.chunks.length = a.chunks.length ∨
      r.allocator.chunks.length = a.chunks.length + 1) ∧
    (r.allocator.chunks.length = a.chunks.length + 1 ↔
      ∃ c r1, a.chunks[a.activeChunk]? = some c ∧ c.Push cycle data pageAlign = some r1 ∧
        r1.offset = 0 ∧
        ∀ (j : Nat) (cj : MegaBufferChunk),
          (a.chunks.set a.activeChunk r1.chunk)[j]? = some cj →
          (cj.TryReset (poll j)).1 = false) := by
  obtain ⟨c, r1, hc, hr1, hcase⟩ := MegaBufferAllocator.allocatorPush_cases h
  rcases hcase with ⟨ho, _, hal, _⟩ | ⟨ho, c2, r2, _, _, _, hal, _⟩
  · have hlen : r.allocator.chunks.length = a.chunks.length := by
      rw [hal]
      simp
    refine ⟨Or.inl hlen, ⟨fun hgrow => by omega, ?_⟩⟩
    rintro ⟨c', r1', hc', hr1', ho', _⟩
    rw [hc] at hc'
    cases hc'
    rw [hr1] at hr1'
    cases hr1'
    exact absurd ho' ho
  · have hlen : r.allocator.chunks.length =
        if (findTryReset poll (a.chunks.set a.activeChunk r1.chunk)).1 =
            (a.chunks.set a.activeChunk r1.chunk).length
        then a.chunks.length + 1 else a.chunks.length := by
      rw [hal]
      simp only [List.length_set, reclaimOrGrow_length]
    have hiff := findTryReset_end_iff poll (a.chunks.set a.activeChunk r1.chunk)
    by_cases hend : (findTryReset poll (a.chunks.set a.activeChunk r1.chunk)).1 =
        (a.chunks.set a.activeChunk r1.chunk).length
    · rw [if_pos hend] at hlen
      exact ⟨Or.inr hlen, ⟨fun _ => ⟨c, r1, hc, hr1, ho, hiff.1 hend⟩, fun _ => hlen⟩⟩
    · rw [if_neg hend] at hlen
      refine ⟨Or.inl hlen, ⟨fun hgrow => by omega, ?_⟩⟩
      rintro ⟨c', r1', hc', hr1', _, hall⟩
      rw [hc] at hc'
      cases hc'
      rw [hr1] at hr1'
      cases hr1'
      exact absurd (hiff.2 hall) hend

/-- Witness for C11: the only chunk holds 100 bytes under cycle 1, which is not complete, and a
request of the full chunk size arrives: a second chunk is appended. -/
theorem C11_chunk_count_grows_by_one_witness :
    ∃ r0 r, (MegaBufferAllocator.construct ⟨7, fun _ => 0⟩).Push ⟨8, fun _ => 0⟩
        (fun _ _ _ => false) (some 1) (List.replicate 100 0) false = some r0 ∧
      r0.allocator.Push ⟨9, fun _ => 0⟩ (fun _ _ _ => false) (some 2)
        (List.replicate 26214400 0) false = some r ∧
      (r.allocator.chunks.length = r0.allocator.chunks.length ∨
        r.allocator.chunks.length = r0.allocator.chunks.length + 1) ∧
      (r.allocator.chunks.length = r0.allocator.chunks.length + 1 ↔
        ∃ c r1, r0.allocator.chunks[r0.allocator.activeChunk]? = some c ∧
          c.Push (some 2) (List.replicate 26214400 0) false = some r1 ∧ r1.offset = 0 ∧
          ∀ (j : Nat) (cj : MegaBufferChunk),
            (r0.allocator.chunks.set r0.allocator.activeChunk r1.chunk)[j]? = some cj →
            (cj.TryReset ((fun _ _ _ => false) j)).1 = false) := by
  have hv0 := MegaBufferAllocator.allocatorConstruct_validNonNull ⟨7, fun _ => 0⟩
  obtain ⟨r0, h0⟩ := MegaBufferAllocator.allocatorPush_some_isSome hv0 ⟨8, fun _ => 0⟩
    (fun _ _ _ => false) 1 (List.replicate 100 0) false
  obtain ⟨r, hr⟩ := MegaBufferAllocator.allocatorPush_some_isSome
    (MegaBufferAllocator.allocatorPush_validNonNull hv0 h0) ⟨9, fun _ => 0⟩
    (fun _ _ _ => false) 2 (List.replicate 26214400 0) false
  exact ⟨r0, r, h0, hr,
    C11_chunk_count_grows_by_one r0.allocator ⟨9, fun _ => 0⟩ (fun _ _ _ => false) (some 2)
      (List.replicate 26214400 0) false r hr⟩

/-- C12: when the first attempt on the active chunk returns 0 and some chunk is reclaimable,
the allocator's `Push` makes active the first chunk in list order whose `TryReset` returns
true: every chunk before it had `TryReset` return false and is left as it was, no chunk after
it is modified, and the call does not depend on the completion answers for the chunks after
it. -/
theorem C12_first_fit (a : MegaBufferAllocator) (fresh : Buffer)
    (poll : Nat → FenceCycle → Bool → Bool) (cycle : Option FenceCycle) (data : List u8)
    (pageAlign : Bool) (r : AllocatorPushResult) (c : MegaBufferChunk) (r1 : PushResult)
    (h : a.Push fresh poll cycle data pageAlign = some r)
    (hc : a.chunks[a.activeChunk]? = some c) (hr1 : c.Push cycle data pageAlign = some r1)
    (h0 : r1.offset = 0)
    (hex : ∃ (j : Nat) (cj : MegaBufferChunk),
      (a.chunks.set a.activeChunk r1.chunk)[j]? = some cj ∧
      (cj.TryReset (poll j)).1 = true) :
    ∃ ck, (a.chunks.set a.activeChunk r1.chunk)[r.allocator.activeChunk]? = some ck ∧
      (ck.TryReset (poll r.allocator.activeChunk)).1 = true ∧
      (∀ (j : Nat) (cj : MegaBufferChunk), j < r.allocator.activeChunk →
        (a.chunks.set a.activeChunk r1.chunk)[j]? = some cj →
        (cj.TryReset (poll j)).1 = false ∧ r.allocator.chunks[j]? = some cj) ∧
      (∀ (j : Nat), r.allocator.activeChunk < j →
        r.allocator.chunks[j]? = (a.chunks.set a.activeChunk r1.chunk)[j]?) ∧
      (∀ (poll2 : Nat → FenceCycle → Bool → Bool),
        (∀ j, j ≤ r.allocator.activeChunk → poll2 j = poll j) →
        a.Push fresh poll2 cycle data pageAlign = some r) := by
  obtain ⟨c', r1', hc', hr1', hcase⟩ := MegaBufferAllocator.allocatorPush_cases h
  rw [hc] at hc'
  cases hc'
  rw [hr1] at hr1'
  cases hr1'
  rcases hcase with ⟨ho, _⟩ | ⟨_, c2, r2, hc2, hr2, _, hal, _⟩
  · exact absurd h0 ho
  · have hnotend : (findTryReset poll (a.chunks.set a.activeChunk r1.chunk)).1 ≠
        (a.chunks.set a.activeChunk r1.chunk).length := by
      intro hend
      obtain ⟨j, cj, hj, htrue⟩ := hex
      rw [(findTryReset_end_iff poll _).1 hend j cj hj] at htrue
      cases htrue
    rcases reclaimOrGrow_active fresh poll (a.chunks.set a.activeChunk r1.chunk) with
      ⟨ck, hck, htrue, hr, _⟩ | ⟨hend, _, _⟩
    · have hact : r.allocator.activeChunk =
          (findTryReset poll (a.chunks.set a.activeChunk r1.chunk)).1 := by
        rw [hal, hr]
      have hchunks : r.allocator.chunks =
          (findTryReset poll (a.chunks.set a.activeChunk r1.chunk)).2.set
            (findTryReset poll (a.chunks.set a.activeChunk r1.chunk)).1 r2.chunk := by
        rw [hal, hr]
      rw [hact]
      refine ⟨ck, hck, htrue, ?_, ?_, ?_⟩
      · intro j cj hlt hj
        obtain ⟨hfalse, hkeep⟩ := findTryReset_before poll _ j cj hj hlt
        refine ⟨hfalse, ?_⟩
        rw [hchunks, List.getElem?_set, if_neg (by omega)]
        exact hkeep
      · intro j hlt
        rw [hchunks, List.getElem?_set, if_neg (by omega)]
        exact findTryReset_after poll _ j hlt
      · intro poll2 hagree
        have heq := reclaimOrGrow_congr fresh poll poll2
          (a.chunks.set a.activeChunk r1.chunk) hagree
        have hsame : a.Push fresh poll2 cycle data pageAlign =
            a.Push fresh poll cycle data pageAlign := by
          unfold MegaBufferAllocator.Push
          simp only [hc, hr1]
          rw [heq]
        rw [hsame]
        exact h
    · exact absurd hend hnotend

/-- Witness for C12: two chunks, the first full under cycle 1 (not complete) and active, the
second under cycle 2 (complete); 5 bytes are requested and the second chunk becomes active. -/
theorem C12_first_fit_witness :
    ∃ r r1 ck,
      (MegaBufferAllocator.mk
        [⟨⟨7, fun _ => 0⟩, ⟨26214400, 0⟩, some 1⟩, ⟨⟨8, fun _ => 0⟩, ⟨8192, 26206208⟩, some 2⟩]
        0).Push ⟨9, fun _ => 0⟩ (fun _ t _ => decide (t = 2)) (some 3) [1, 2, 3, 4, 5] false
        = some r ∧
      (MegaBufferChunk.mk ⟨7, fun _ => 0⟩ ⟨26214400, 0⟩ (some 1)).Push (some 3)
        [1, 2, 3, 4, 5] false = some r1 ∧ r1.offset = 0 ∧
      ([⟨⟨7, fun _ => 0⟩, ⟨26214400, 0⟩, some 1⟩,
        ⟨⟨8, fun _ => 0⟩, ⟨8192, 26206208⟩, some 2⟩].set 0 r1.chunk)[r.allocator.activeChunk]?
        = some ck ∧
      (ck.TryReset ((fun (_ : Nat) (t : FenceCycle) (_ : Bool) => decide (t = 2))
        r.allocator.activeChunk)).1 = true ∧
      r.allocator.activeChunk = 1 := by
  have hc : (MegaBufferAllocator.mk
      [⟨⟨7, fun _ => 0⟩, ⟨26214400, 0⟩, some 1⟩, ⟨⟨8, fun _ => 0⟩, ⟨8192, 26206208⟩, some 2⟩]
      0).chunks[(MegaBufferAllocator.mk
      [⟨⟨7, fun _ => 0⟩, ⟨26214400, 0⟩, some 1⟩, ⟨⟨8, fun _ => 0⟩, ⟨8192, 26206208⟩, some 2⟩]
      0).activeChunk]? = some ⟨⟨7, fun _ => 0⟩, ⟨26214400, 0⟩, some 1⟩ := rfl
  have hr1 : (MegaBufferChunk.mk ⟨7, fun _ => 0⟩ ⟨26214400, 0⟩ (some 1)).Push (some 3)
      [1, 2, 3, 4, 5] false = some ⟨0, ⟨⟨7, fun _ => 0⟩, ⟨26214400, 0⟩, some 1⟩, []⟩ := by
    simp [MegaBufferChunk.Push, MegaBufferChunk.alignFree]
  have hfind : findTryReset (fun _ t _ => decide (t = 2))
      [⟨⟨7, fun _ => 0⟩, ⟨26214400, 0⟩, some 1⟩, ⟨⟨8, fun _ => 0⟩, ⟨8192, 26206208⟩, some 2⟩]
      = (1, [⟨⟨7, fun _ => 0⟩, ⟨26214400, 0⟩, some 1⟩,
             ⟨⟨8, fun _ => 0⟩, (⟨8, fun _ => 0⟩ : Buffer).subspan PAGE_SIZE, none⟩]) := by
    simp [findTryReset, MegaBufferChunk.TryReset]
  have hgrow : reclaimOrGrow ⟨9, fun _ => 0⟩ (fun _ t _ => decide (t = 2))
      [⟨⟨7, fun _ => 0⟩, ⟨26214400, 0⟩, some 1⟩, ⟨⟨8, fun _ => 0⟩, ⟨8192, 26206208⟩, some 2⟩]
      = (1, [⟨⟨7, fun _ => 0⟩, ⟨26214400, 0⟩, some 1⟩,
             ⟨⟨8, fun _ => 0⟩, (⟨8, fun _ => 0⟩ : Buffer).subspan PAGE_SIZE, none⟩]) := by
    simp [reclaimOrGrow, hfind]
  obtain ⟨r2, hr2⟩ := (MegaBufferChunk.mk ⟨8, fun _ => 0⟩
    ((⟨8, fun _ => 0⟩ : Buffer).subspan PAGE_SIZE) none).Push_some_isSome 3 [1, 2, 3, 4, 5] false
  have hc2 : (reclaimOrGrow ⟨9, fun _ => 0⟩ (fun _ t _ => decide (t = 2))
      ((MegaBufferAllocator.mk
        [⟨⟨7, fun _ => 0⟩, ⟨26214400, 0⟩, some 1⟩, ⟨⟨8, fun _ => 0⟩, ⟨8192, 26206208⟩, some 2⟩]
        0).chunks.set 0 (MegaBufferChunk.mk ⟨7, fun _ => 0⟩ ⟨26214400, 0⟩ (some 1)))).2[
      (reclaimOrGrow ⟨9, fun _ => 0⟩ (fun _ t _ => decide (t = 2))
      ((MegaBufferAllocator.mk
        [⟨⟨7, fun _ => 0⟩, ⟨26214400, 0⟩, some 1⟩, ⟨⟨8, fun _ => 0⟩, ⟨8192, 26206208⟩, some 2⟩]
        0).chunks.set 0 (MegaBufferChunk.mk ⟨7, fun _ => 0⟩ ⟨26214400, 0⟩ (some 1)))).1]? =
      some (MegaBufferChunk.mk ⟨8, fun _ => 0⟩
        ((⟨8, fun _ => 0⟩ : Buffer).subspan PAGE_SIZE) none) := by
    simp only [List.set_cons_zero]
    rw [hgrow]
    rfl
  have hpush := MegaBufferAllocator.allocatorPush_retry
    ⟨9, fun _ => 0⟩ (fun _ t _ => decide (t = 2)) hc hr1 rfl hc2 hr2
  have hex : ∃ (j : Nat) (cj : MegaBufferChunk),
      ((MegaBufferAllocator.mk
        [⟨⟨7, fun _ => 0⟩, ⟨26214400, 0⟩, some 1⟩, ⟨⟨8, fun _ => 0⟩, ⟨8192, 26206208⟩, some 2⟩]
        0).chunks.set 0 (MegaBufferChunk.mk ⟨7, fun _ => 0⟩ ⟨26214400, 0⟩ (some 1)))[j]?
        = some cj ∧
      (cj.TryReset ((fun (_ : Nat) (t : FenceCycle) (_ : Bool) => decide (t = 2)) j)).1
        = true :=
    ⟨1, ⟨⟨8, fun _ => 0⟩, ⟨8192, 26206208⟩, some 2⟩, rfl, rfl⟩
  obtain ⟨ck, hck, htrue, _⟩ := C12_first_fit _ ⟨9, fun _ => 0⟩ (fun _ t _ => decide (t = 2))
    (some 3) [1, 2, 3, 4, 5] false _ _ _ hpush hc hr1 rfl hex
  refine ⟨_, _, ck, hpush, hr1, rfl, hck, htrue, ?_⟩
  simp only [List.set_cons_zero]
  rw [hgrow]

/-- C14: when the allocator's `Push`, called in a reachable state with data of size `n`,
returns a handle and an offset, the handle is `GetBacking()` of the chunk that is active when
the call returns, the bytes of that chunk's backing at `[offset, offset + n)` are the data, and
every other byte of that backing and every byte of every other chunk's backing is as it was
before the call (for a chunk appended by the call: as the device allocator handed it out). -/
theorem C14_returned_allocation_frame (a : MegaBufferAllocator) (ha : a.Reachable)
    (fresh : Buffer) (poll : Nat → FenceCycle → Bool → Bool) (cycle : Option FenceCycle)
    (data : List u8) (pageAlign : Bool) (r : AllocatorPushResult) (allocation : Allocation)
    (h : a.Push fresh poll cycle data pageAlign = some r)
    (hout : r.outcome = .returned allocation) :
    ∃ active, r.allocator.chunks[r.allocator.activeChunk]? = some active ∧
      allocation.buffer = active.GetBacking ∧
      (∀ i, i < data.length →
        data[i]? = some (active.backing.bytes (allocation.offset + i))) ∧
      (∀ i, ¬ (allocation.offset ≤ i ∧ i < allocation.offset + data.length) →
        active.backing.bytes i = (a.backingBefore fresh r.allocator.activeChunk).bytes i) ∧
      (∀ (j : Nat) (cj : MegaBufferChunk), j ≠ r.allocator.activeChunk →
        r.allocator.chunks[j]? = some cj → cj.backing = a.backingBefore fresh j) := by
  have hv := ha.allocatorValid
  obtain ⟨c, r1, hc, hr1, hcase⟩ := MegaBufferAllocator.allocatorPush_cases h
  have hcv : c.Valid := hv.2 c (List.getElem?_mem hc)
  have hact : a.activeChunk < a.chunks.length := hv.1
  rcases hcase with ⟨ho, hout1, hal, _⟩ | ⟨ho, c2, r2, hc2, hr2, hout2, hal, _⟩
  · -- the first attempt allocates
    rw [hout1] at hout
    cases hout
    have hback : r1.chunk.backing = c.backing.copy_from ⟨r1.offset, data.length⟩ data := by
      rcases MegaBufferChunk.Push_cases hr1 with ⟨_, ho0, _, _⟩ | ⟨_, hoff, hb, _, _, _⟩
      · exact absurd ho0 ho
      · rw [hb, hoff]
    have hold : a.backingBefore fresh a.activeChunk = c.backing := by
      simp only [MegaBufferAllocator.backingBefore, hc]
    rw [hal]
    refine ⟨r1.chunk, ?_, rfl, ?_, ?_, ?_⟩
    · simp only []
      rw [List.getElem?_set, if_pos rfl, if_pos hact]
    · intro i hi
      rw [hback]
      exact Buffer.copy_from_inside _ _ _ _ hi
    · intro i hi
      simp only []
      rw [hback, hold]
      exact Buffer.copy_from_outside _ _ _ _ hi
    · intro j cj hne hj
      simp only [] at hne hj
      rw [List.getElem?_set, if_neg (fun e => hne e.symm)] at hj
      simp only [MegaBufferAllocator.backingBefore, hj]
  · -- the first attempt fails, the second allocates
    have ho2 : r2.offset ≠ 0 := by
      intro hz
      rw [hout2, if_neg (by simpa using hz)] at hout
      cases hout
    rw [hout2, if_pos ho2] at hout
    cases hout
    obtain ⟨_, hr1chunk, _⟩ := MegaBufferChunk.Push_zero hcv hr1 ho
    have hsame : ∀ j, (MegaBufferAllocator.mk (a.chunks.set a.activeChunk r1.chunk)
        0).backingBefore fresh j = a.backingBefore fresh j := by
      intro j
      simp only [MegaBufferAllocator.backingBefore]
      rw [List.getElem?_set]
      by_cases hj : a.activeChunk = j
      · rw [if_pos hj, if_pos hact, ← hj, hc, hr1chunk]
        exact MegaBufferChunk.alignFree_backing c pageAlign
      · rw [if_neg hj]
    have hback : r2.chunk.backing = c2.backing.copy_from ⟨r2.offset, data.length⟩ data := by
      rcases MegaBufferChunk.Push_cases hr2 with ⟨_, ho0, _, _⟩ | ⟨_, hoff, hb, _, _, _⟩
      · exact absurd ho0 ho2
      · rw [hb, hoff]
    have hc2back := reclaimOrGrow_backing fresh poll _ _ c2 hc2
    rw [hsame] at hc2back
    have hlt : (reclaimOrGrow fresh poll (a.chunks.set a.activeChunk r1.chunk)).1 <
        (reclaimOrGrow fresh poll (a.chunks.set a.activeChunk r1.chunk)).2.length := by
      by_contra hge
      rw [List.getElem?_eq_none (by omega)] at hc2
      cases hc2
    rw [hal]
    refine ⟨r2.chunk, ?_, rfl, ?_, ?_, ?_⟩
    · simp only []
      rw [List.getElem?_set, if_pos rfl, if_pos hlt]
    · intro i hi
      rw [hback]
      exact Buffer.copy_from_inside _ _ _ _ hi
    · intro i hi
      simp only []
      rw [hback, ← hc2back]
      exact Buffer.copy_from_outside _ _ _ _ hi
    · intro j cj hne hj
      simp only [] at hne hj
      rw [List.getElem?_set, if_neg (fun e => hne e.symm)] at hj
      rw [← hsame]
      exact reclaimOrGrow_backing fresh poll _ j cj hj

/-- Witness for C14: a fresh allocator takes three bytes. -/
theorem C14_returned_allocation_frame_witness :
    ∃ r allocation,
      (MegaBufferAllocator.construct ⟨7, fun _ => 0⟩).Push ⟨8, fun _ => 0⟩ (fun _ _ _ => false)
        (some 1) [1, 2, 3] false = some r ∧
      (MegaBufferAllocator.construct ⟨7, fun _ => 0⟩).Reachable ∧
      r.outcome = .returned allocation ∧
      ∃ active, r.allocator.chunks[r.allocator.activeChunk]? = some active ∧
        allocation.buffer = active.GetBacking ∧
        (∀ i, i < [(1 : u8), 2, 3].length →
          [(1 : u8), 2, 3][i]? = some (active.backing.bytes (allocation.offset + i))) ∧
        (∀ i, ¬ (allocation.offset ≤ i ∧ i < allocation.offset + [(1 : u8), 2, 3].length) →
          active.backing.bytes i =
            ((MegaBufferAllocator.construct ⟨7, fun _ => 0⟩).backingBefore ⟨8, fun _ => 0⟩
              r.allocator.activeChunk).bytes i) ∧
        (∀ (j : Nat) (cj : MegaBufferChunk), j ≠ r.allocator.activeChunk →
          r.allocator.chunks[j]? = some cj →
          cj.backing =
            (MegaBufferAllocator.construct ⟨7, fun _ => 0⟩).backingBefore ⟨8, fun _ => 0⟩ j) := by
  obtain ⟨r1, hr1⟩ := (MegaBufferChunk.construct ⟨7, fun _ => 0⟩).Push_some_isSome 1 [1, 2, 3]
    false
  have ho : r1.offset ≠ 0 := by
    rw [(MegaBufferChunk.Push_pristine_state (c := MegaBufferChunk.construct ⟨7, fun _ => 0⟩) rfl
      (by simp only [List.length, PAGE_SIZE, chunkSize_eq]; omega) hr1).1]
    omega
  have hpush := MegaBufferAllocator.allocatorPush_first
    (a := MegaBufferAllocator.construct ⟨7, fun _ => 0⟩) ⟨8, fun _ => 0⟩ (fun _ _ _ => false)
    rfl hr1 ho
  exact ⟨_, _, hpush, .construct _, rfl,
    C14_returned_allocation_frame _ (.construct _) ⟨8, fun _ => 0⟩ (fun _ _ _ => false) (some 1)
      [1, 2, 3] false _ _ hpush rfl⟩

/-- C13, as stated, fails: after the three pushes of the scenario, with token B not complete,
the request of `C = 26214400` bytes does not succeed at offset 4096 of the new chunk; the
allocator throws, because the new chunk has only `C - P` bytes free. -/
theorem C13_counterexample :
    ∃ r1 r2 r3 r4,
      (MegaBufferAllocator.construct ⟨7, fun _ => 0⟩).Push ⟨8, fun _ => 0⟩ (fun _ _ _ => false)
        (some 1) (List.replicate 100 0) false = some r1 ∧
      r1.allocator.Push ⟨8, fun _ => 0⟩ (fun _ _ _ => false) (some 1) (List.replicate 200 0)
        false = some r2 ∧
      r2.allocator.Push ⟨8, fun _ => 0⟩ (fun _ _ _ => false) (some 2) (List.replicate 50 0)
        true = some r3 ∧
      r3.allocator.Push ⟨8, fun _ => 0⟩ (fun _ _ _ => false) (some 2)
        (List.replicate 26214400 0) false = some r4 ∧
      r4.outcome = .thrown 26214400 ∧ r4.outcome ≠ .returned ⟨8, 4096⟩ ∧
      r4.allocator.chunks.length = 2 := by
  obtain ⟨r1, r2, r3, r4, _, h1, _, h2, _, h3, _, h4, ho4, hlen, _⟩ :=
    example_scenario ⟨7, fun _ => 0⟩ ⟨8, fun _ => 0⟩ (fun _ _ _ => false) 1 2
      (List.replicate 100 0) (List.replicate 200 0) (List.replicate 50 0)
      (List.replicate 26214400 0) (List.replicate 26210304 0) false
      (List.length_replicate _ _) (List.length_replicate _ _) (List.length_replicate _ _)
      (by rw [List.length_replicate, chunkSize_eq])
      (by rw [List.length_replicate]; simp only [PAGE_SIZE, chunkSize_eq]) rfl
  rw [chunkSize_eq] at ho4
  refine ⟨r1, r2, r3, r4, h1, h2, h3, h4, ho4, ?_, hlen⟩
  rw [ho4]
  exact fun hne => PushEnd.noConfusion hne

/-- C13, amended: with `C = 25*1024*1024` and `P = 4096`, in a fresh allocator after
`Push(tokenA, 100B)`, `Push(tokenA, 200B)` and `Push(tokenB, 50B, pageAlign=true)`, which
return 4096, 4196 and 8192, the call `Push(tokenB, C bytes)` fails within the active chunk and,
if token B has not completed, a new chunk is created on which the request fails as well, so
the allocation-size exception is thrown; a request of `C - P` bytes instead succeeds at offset
4096 of the new chunk. -/
theorem C13_scenario_full_size_request_throws (backing fresh : Buffer)
    (poll : Nat → FenceCycle → Bool → Bool) (tokenA tokenB : FenceCycle)
    (d1 d2 d3 d4 d5 : List u8) (pageAlign : Bool)
    (h1 : d1.length = 100) (h2 : d2.length = 200) (h3 : d3.length = 50)
    (h4 : d4.length = MegaBufferChunkSize)
    (h5 : d5.length = MegaBufferChunkSize - PAGE_SIZE)
    (hbusy : poll 0 tokenB true = false) :
    ∃ r1 r2 r3 r4 r5,
      (MegaBufferAllocator.construct backing).Push fresh poll (some tokenA) d1 false = some r1 ∧
      r1.outcome = .returned ⟨backing.vkBuffer, 4096⟩ ∧
      r1.allocator.Push fresh poll (some tokenA) d2 false = some r2 ∧
      r2.outcome = .returned ⟨backing.vkBuffer, 4196⟩ ∧
      r2.allocator.Push fresh poll (some tokenB) d3 true = some r3 ∧
      r3.outcome = .returned ⟨backing.vkBuffer, 8192⟩ ∧
      r3.allocator.Push fresh poll (some tokenB) d4 pageAlign = some r4 ∧
      r4.outcome = .thrown MegaBufferChunkSize ∧
      r4.allocator.chunks.length = 2 ∧ r4.allocator.activeChunk = 1 ∧
      r3.allocator.Push fresh poll (some tokenB) d5 pageAlign = some r5 ∧
      r5.outcome = .returned ⟨fresh.vkBuffer, 4096⟩ ∧
      r5.allocator.chunks.length = 2 ∧ r5.allocator.activeChunk = 1 :=
  example_scenario backing fresh poll tokenA tokenB d1 d2 d3 d4 d5 pageAlign h1 h2 h3 h4 h5 hbusy

/-- Witness for C13 as amended: the scenario with tokens 1 and 2 and zero bytes. -/
theorem C13_scenario_full_size_request_throws_witness :
    (List.replicate 100 (0 : u8)).length = 100 ∧ (List.replicate 200 (0 : u8)).length = 200 ∧
    (List.replicate 50 (0 : u8)).length = 50 ∧
    (List.replicate 26214400 (0 : u8)).length = MegaBufferChunkSize ∧
    (List.replicate 26210304 (0 : u8)).length = MegaBufferChunkSize - PAGE_SIZE ∧
    (fun (_ : Nat) (_ : FenceCycle) (_ : Bool) => false) 0 2 true = false ∧
    ∃ r1 r2 r3 r4 r5,
      (MegaBufferAllocator.construct ⟨7, fun _ => 0⟩).Push ⟨8, fun _ => 0⟩ (fun _ _ _ => false)
        (some 1) (List.replicate 100 0) false = some r1 ∧
      r1.outcome = .returned ⟨7, 4096⟩ ∧
      r1.allocator.Push ⟨8, fun _ => 0⟩ (fun _ _ _ => false) (some 1) (List.replicate 200 0)
        false = some r2 ∧
      r2.outcome = .returned ⟨7, 4196⟩ ∧
      r2.allocator.Push ⟨8, fun _ => 0⟩ (fun _ _ _ => false) (some 2) (List.replicate 50 0)
        true = some r3 ∧
      r3.outcome = .returned ⟨7, 8192⟩ ∧
      r3.allocator.Push ⟨8, fun _ => 0⟩ (fun _ _ _ => false) (some 2)
        (List.replicate 26214400 0) true = some r4 ∧
      r4.outcome = .thrown MegaBufferChunkSize ∧
      r4.allocator.chunks.length = 2 ∧ r4.allocator.activeChunk = 1 ∧
      r3.allocator.Push ⟨8, fun _ => 0⟩ (fun _ _ _ => false) (some 2)
        (List.replicate 26210304 0) true = some r5 ∧
      r5.outcome = .returned ⟨8, 4096⟩ ∧
      r5.allocator.chunks.length = 2 ∧ r5.allocator.activeChunk = 1 :=
  ⟨List.length_replicate _ _, List.length_replicate _ _, List.length_replicate _ _,
    by rw [List.length_replicate, chunkSize_eq],
    by rw [List.length_replicate]; simp only [PAGE_SIZE, chunkSize_eq], rfl,
    C13_scenario_full_size_request_throws ⟨7, fun _ => 0⟩ ⟨8, fun _ => 0⟩ (fun _ _ _ => false)
      1 2 (List.replicate 100 0) (List.replicate 200 0) (List.replicate 50 0)
      (List.replicate 26214400 0) (List.replicate 26210304 0) true
      (List.length_replicate _ _) (List.length_replicate _ _) (List.length_replicate _ _)
      (by rw [List.length_replicate, chunkSize_eq])
      (by rw [List.length_replicate]; simp only [PAGE_SIZE, chunkSize_eq]) rfl⟩

/-- C20, as stated, fails: after one byte was pushed with a null token the only chunk has
cursor 4097 and a null cycle; a request of the full chunk size then makes `TryReset` return
true for that chunk without resetting it, the retry fails and the allocator throws with an
active chunk whose cursor is 4097, not `P`. -/
theorem C20_counterexample :
    ∃ r0 r active,
      (MegaBufferAllocator.construct ⟨7, fun _ => 0⟩).Push ⟨8, fun _ => 0⟩ (fun _ _ _ => false)
        none [5] false = some r0 ∧
      r0.outcome = .returned ⟨7, 4096⟩ ∧ r0.allocator.Reachable ∧
      r0.allocator.Push ⟨8, fun _ => 0⟩ (fun _ _ _ => false) (some 1)
        (List.replicate 26214400 0) false = some r ∧
      r.outcome = .thrown 26214400 ∧
      r.allocator.chunks[r.allocator.activeChunk]? = some active ∧
      active.freeRegion.offset = 4097 ∧ active.freeRegion.offset ≠ PAGE_SIZE ∧
      r.allocator.chunks.length = 1 := by
  -- the push with the null token
  obtain ⟨q0, hq0⟩ := (MegaBufferChunk.construct ⟨7, fun _ => 0⟩).Push_null_cycle_isSome rfl
    none [5] false
  obtain ⟨ho0, hfr, hcy⟩ := MegaBufferChunk.construct_push_one hq0
  have hvk : q0.chunk.GetBacking = 7 := by
    rcases MegaBufferChunk.Push_cases hq0 with ⟨_, hz, _, _⟩ | ⟨_, _, hb, _, _, _⟩
    · omega
    · simp only [MegaBufferChunk.GetBacking, hb, Buffer.copy_from_vkBuffer]
      rfl
  have hp0 := MegaBufferAllocator.allocatorPush_first
    (a := MegaBufferAllocator.construct ⟨7, fun _ => 0⟩) ⟨8, fun _ => 0⟩ (fun _ _ _ => false)
    rfl hq0 (by omega)
  rw [hvk, ho0] at hp0
  -- the request of the full chunk size
  have hbig : (List.replicate 26214400 (0 : u8)).length >
      (q0.chunk.alignFree false).freeRegion.size := by
    rw [MegaBufferChunk.alignFree_false, hfr, List.length_replicate]
    simp only []
    omega
  have hq1 := q0.chunk.Push_too_big (some 1) false hbig
  rw [MegaBufferChunk.alignFree_false] at hq1
  have hfind : reclaimOrGrow ⟨8, fun _ => 0⟩ (fun _ _ _ => false) [q0.chunk] =
      (0, [q0.chunk]) := by
    simp [reclaimOrGrow, findTryReset, MegaBufferChunk.TryReset, hcy]
  have hc1 : (MegaBufferAllocator.mk [q0.chunk] 0).chunks[
      (MegaBufferAllocator.mk [q0.chunk] 0).activeChunk]? = some q0.chunk := by simp
  have hc2 : (reclaimOrGrow ⟨8, fun _ => 0⟩ (fun _ _ _ => false)
      ((MegaBufferAllocator.mk [q0.chunk] 0).chunks.set
        (MegaBufferAllocator.mk [q0.chunk] 0).activeChunk q0.chunk)).2[
      (reclaimOrGrow ⟨8, fun _ => 0⟩ (fun _ _ _ => false)
      ((MegaBufferAllocator.mk [q0.chunk] 0).chunks.set
        (MegaBufferAllocator.mk [q0.chunk] 0).activeChunk q0.chunk)).1]? = some q0.chunk := by
    simp only [List.set_cons_zero]
    rw [hfind]
    rfl
  have hp1 := MegaBufferAllocator.allocatorPush_retry
    ⟨8, fun _ => 0⟩ (fun _ _ _ => false) hc1 hq1 rfl hc2 hq1
  simp only [List.set_cons_zero] at hp1
  rw [hfind] at hp1
  simp only [List.set_cons_zero, ne_eq, not_true_eq_false, if_false, List.length_replicate]
    at hp1
  refine ⟨_, _, q0.chunk, hp0, rfl, ?_, hp1, rfl, by simp, by rw [hfr], ?_, by simp⟩
  · exact .push ⟨8, fun _ => 0⟩ (fun _ _ _ => false) none [5] false (.construct _) hp0
  · rw [hfr]
    simp only [PAGE_SIZE]
    omega

/-- C20, amended: in allocator states reachable through calls of `Push` made with non-null
tokens, whenever the allocator's `Push` throws, the active chunk afterwards is a pristine chunk
(cursor at `P`, cycle null) that is either a newly appended chunk or an existing chunk for
which `TryReset` returned true during the call; and in every reachable state in which every
chunk has a non-null cycle that reports not complete, a request of more than `C - P` bytes
throws after the number of chunks has increased by one. -/
theorem C20_throw_leaves_pristine_active_chunk :
    (∀ (a : MegaBufferAllocator), a.ReachableNonNull →
      ∀ (fresh : Buffer) (poll : Nat → FenceCycle → Bool → Bool) (cycle : Option FenceCycle)
        (data : List u8) (pageAlign : Bool) (r : AllocatorPushResult) (size : Nat),
      a.Push fresh poll cycle data pageAlign = some r → r.outcome = .thrown size →
      ∃ active, r.allocator.chunks[r.allocator.activeChunk]? = some active ∧
        active.freeRegion = active.backing.subspan PAGE_SIZE ∧
        active.freeRegion.offset = PAGE_SIZE ∧ active.cycle = none ∧
        ((r.allocator.activeChunk = a.chunks.length ∧
            r.allocator.chunks.length = a.chunks.length + 1 ∧
            active = MegaBufferChunk.construct fresh) ∨
         (r.allocator.activeChunk < a.chunks.length ∧
            r.allocator.chunks.length = a.chunks.length ∧
            ∃ c r1 ck, a.chunks[a.activeChunk]? = some c ∧
              c.Push cycle data pageAlign = some r1 ∧
              (a.chunks.set a.activeChunk r1.chunk)[r.allocator.activeChunk]? = some ck ∧
              (ck.TryReset (poll r.allocator.activeChunk)).1 = true ∧
              active = (ck.TryReset (poll r.allocator.activeChunk)).2))) ∧
    (∀ (a : MegaBufferAllocator), a.Reachable →
      ∀ (fresh : Buffer) (poll : Nat → FenceCycle → Bool → Bool) (cycle : Option FenceCycle)
        (data : List u8) (pageAlign : Bool),
      (∀ (j : Nat) (cj : MegaBufferChunk), a.chunks[j]? = some cj →
        ∃ t, cj.cycle = some t ∧ poll j t true = false) →
      data.length > MegaBufferChunkSize - PAGE_SIZE →
      ∃ r, a.Push fresh poll cycle data pageAlign = some r ∧
        r.outcome = .thrown data.length ∧
        r.allocator.chunks.length = a.chunks.length + 1 ∧
        r.allocator.activeChunk = a.chunks.length) := by
  constructor
  · intro a ha fresh poll cycle data pageAlign r size h hout
    have hv := ha.allocatorValidNonNull
    obtain ⟨c, r1, hc, hr1, hcase⟩ := MegaBufferAllocator.allocatorPush_cases h
    have hcv : c.ValidNonNull := hv.2 c (List.getElem?_mem hc)
    rcases hcase with ⟨_, hout1, _, _⟩ | ⟨ho, c2, r2, hc2, hr2, hout2, hal, _⟩
    · rw [hout1] at hout
      cases hout
    · have hz2 : r2.offset = 0 := by
        by_contra hne
        rw [hout2, if_pos hne] at hout
        cases hout
      obtain ⟨_, hr1chunk, _⟩ := MegaBufferChunk.Push_zero hcv.1 hr1 ho
      have h1 : ∀ c ∈ a.chunks.set a.activeChunk r1.chunk, c.ValidNonNull :=
        forall_mem_set hv.2 _
          (by rw [hr1chunk]; exact MegaBufferChunk.alignFree_validNonNull pageAlign hcv)
      obtain ⟨hall, hlt, c2', hc2', hpristine, hnull⟩ :=
        reclaimOrGrow_validNonNull fresh poll h1
      rw [hc2] at hc2'
      cases hc2'
      have hc2v : c2.Valid := (hall c2 (List.getElem?_mem hc2)).1
      obtain ⟨_, hr2chunk, _⟩ := MegaBufferChunk.Push_zero hc2v hr2 hz2
      rw [MegaBufferChunk.alignFree_pristine hpristine] at hr2chunk
      have hactive : r.allocator.chunks[r.allocator.activeChunk]? = some c2 := by
        rw [hal]
        simp only []
        rw [List.getElem?_set, if_pos rfl, if_pos hlt, hr2chunk]
      have hoff : c2.freeRegion.offset = PAGE_SIZE := by
        rw [hpristine, Buffer.subspan_page]
        rfl
      refine ⟨c2, hactive, hpristine, hoff, hnull, ?_⟩
      have hlen1 : (a.chunks.set a.activeChunk r1.chunk).length = a.chunks.length := by simp
      have hflen := findTryReset_length poll (a.chunks.set a.activeChunk r1.chunk)
      rcases reclaimOrGrow_active fresh poll (a.chunks.set a.activeChunk r1.chunk) with
        ⟨ck, hck, htrue, hr, hget⟩ | ⟨hend, hr, hget⟩
      · right
        have hfound : (findTryReset poll (a.chunks.set a.activeChunk r1.chunk)).1 <
            a.chunks.length := by
          by_contra hge
          rw [List.getElem?_eq_none (by omega)] at hck
          cases hck
        rw [hc2] at hget
        have hact : r.allocator.activeChunk =
            (findTryReset poll (a.chunks.set a.activeChunk r1.chunk)).1 := by
          rw [hal, hr]
        refine ⟨by rw [hact]; exact hfound, ?_, c, r1, ck, hc, hr1, ?_, ?_, ?_⟩
        · rw [hal]
          simp only [List.length_set]
          rw [hr, hflen, hlen1]
        · rw [hact]; exact hck
        · rw [hact]; exact htrue
        · rw [hact]; exact Option.some.inj hget
      · left
        rw [hc2] at hget
        refine ⟨?_, ?_, Option.some.inj hget⟩
        · rw [hal, hr]
          simp
        · rw [hal]
          simp only [List.length_set]
          rw [hr]
          simp [hflen]
  · intro a ha fresh poll cycle data pageAlign hbusy hbig
    have hv := ha.allocatorValid
    have hc : a.chunks[a.activeChunk]? = some (a.chunks.get ⟨_, hv.1⟩) :=
      List.getElem?_eq_getElem hv.1
    have hcv := hv.2 _ (List.getElem?_mem hc)
    have hfree := MegaBufferChunk.free_le hcv pageAlign
    have hfresh := MegaBufferChunk.free_le (MegaBufferChunk.construct_valid fresh) pageAlign
    have hbig2 : data.length >
        ((MegaBufferChunk.construct fresh).alignFree pageAlign).freeRegion.size := by omega
    have hq := (MegaBufferChunk.construct fresh).Push_too_big cycle pageAlign hbig2
    have hp := MegaBufferAllocator.allocatorPush_all_busy fresh poll cycle pageAlign hc
      (by omega) hbusy hq
    refine ⟨_, hp, ?_, ?_, rfl⟩
    · simp
    · simp

/-- Witness for C20 as amended: the only chunk holds 100 bytes under cycle 1, which is not
complete, and a request of the full chunk size throws after a second chunk was appended. -/
theorem C20_throw_leaves_pristine_active_chunk_witness :
    ∃ r0, (MegaBufferAllocator.construct ⟨7, fun _ => 0⟩).Push ⟨8, fun _ => 0⟩
        (fun _ _ _ => false) (some 1) (List.replicate 100 0) false = some r0 ∧
      r0.allocator.Reachable ∧
      (∀ (j : Nat) (cj : MegaBufferChunk), r0.allocator.chunks[j]? = some cj →
        ∃ t, cj.cycle = some t ∧ (fun (_ : Nat) (_ : FenceCycle) (_ : Bool) => false) j t true
          = false) ∧
      (List.replicate 26214400 (0 : u8)).length > MegaBufferChunkSize - PAGE_SIZE ∧
      ∃ r, r0.allocator.Push ⟨9, fun _ => 0⟩ (fun _ _ _ => false) (some 2)
          (List.replicate 26214400 0) false = some r ∧
        r.outcome = .thrown (List.replicate 26214400 (0 : u8)).length ∧
        r.allocator.chunks.length = r0.allocator.chunks.length + 1 ∧
        r.allocator.activeChunk = r0.allocator.chunks.length := by
  obtain ⟨r0, c1, hp0, _, ha0, _, hcy, _⟩ := MegaBufferAllocator.allocatorPush_single
    (MegaBufferChunk.construct ⟨7, fun _ => 0⟩) ⟨8, fun _ => 0⟩ (fun _ _ _ => false) 1
    (List.replicate 100 0) false 4096 26210304
    (by rw [MegaBufferChunk.alignFree_false]; exact Buffer.subspan_page _)
    (by rw [List.length_replicate]; omega) (by omega)
  have hreach : r0.allocator.Reachable :=
    .push ⟨8, fun _ => 0⟩ (fun _ _ _ => false) (some 1) _ false (.construct _) hp0
  have hbusy : ∀ (j : Nat) (cj : MegaBufferChunk), r0.allocator.chunks[j]? = some cj →
      ∃ t, cj.cycle = some t ∧ (fun (_ : Nat) (_ : FenceCycle) (_ : Bool) => false) j t true
        = false := by
    intro j cj hj
    rw [ha0] at hj
    cases j with
    | zero =>
      simp only [List.getElem?_cons_zero, Option.some.injEq] at hj
      rw [← hj]
      exact ⟨1, hcy, rfl⟩
    | succ j => simp at hj
  have hbig : (List.replicate 26214400 (0 : u8)).length > MegaBufferChunkSize - PAGE_SIZE := by
    rw [List.length_replicate]
    simp only [PAGE_SIZE, chunkSize_eq]
    omega
  exact ⟨r0, hp0, hreach, hbusy, hbig,
    C20_throw_leaves_pristine_active_chunk.2 r0.allocator hreach ⟨9, fun _ => 0⟩
      (fun _ _ _ => false) (some 2) (List.replicate 26214400 0) false hbusy hbig⟩

end skyline.gpu
